import Mathlib

/-!
Verification of the `Ax` repository fragment: a shallow embedding of
`ax/core/generator_run.py` (the `GeneratorRun` value object) and of
`ax/service/utils/report_utils.py` (suffix-uniqueness resolver,
experiment-to-table transform, best-trial selector, standard-plot
assembler), together with theorems settling the specification claims.

Modelling conventions:
* Python `float` weights and metric means are modelled as rationals `ℚ`
  (exact arithmetic stands in for IEEE arithmetic; no claim here is about
  rounding).
* Python exceptions are modelled with `Except PyErr`; a raising
  constructor returns `.error e` and no partial object.
* Python mutable containers (dicts and the prediction structures held by a
  `GeneratorRun`) are modelled as a pair of an address (`Nat`) and the
  container's current contents; two fields alias exactly when their
  addresses coincide.  In-place mutation is modelled by `heapWrite`,
  which rewrites the contents of every container of the object that
  carries the written address.
* Python `str` is modelled as `List Char` in the suffix-resolver section
  (so that Python's `split`/`join` can be embedded as structurally
  recursive functions).
-/

/-- Kinds of Python exception observed by the embedded code: `ValueError`
(the spec's InvalidArgument / InvalidState), `AssertionError` (a failed
`assert`), `KeyError` (missing dict key), and `NotImplementedError`. -/
inductive PyErr where
  | valueError
  | assertionError
  | keyError
  | notImplemented
deriving DecidableEq, Repr

/-- Contents of an opaque Python mutable container (dict-like): a list of
string-keyed entries.  Only identity-under-mutation and observable
contents matter to the claims, so values are abstracted to `Int`. -/
abbrev PyObj := List (String × Int)

/-- A reference to a mutable container: its heap address paired with its
current contents.  Two references alias exactly when the addresses
are equal. -/
abbrev Ref := Nat × PyObj

/-- Write `v` into the container at address `a`: the contents change
exactly when the reference carries that address. -/
def writeRef (a : Nat) (v : PyObj) : Option Ref → Option Ref
  | some (a', w) => if a' = a then some (a', v) else some (a', w)
  | none => none

/-- External collaborator `ax.core.arm.Arm` (not part of this repository):
an immutable configuration, of which this code reads only the stable
content-derived `signature`. -/
structure Arm where
  signature : String
deriving DecidableEq, Repr

/-- External `Arm.clone`: returns an equal immutable configuration. -/
def Arm.clone (a : Arm) : Arm := a

/-- `ArmWeight` (generator_run.py): a NamedTuple tying an arm to its
weight. -/
structure ArmWeight where
  arm : Arm
  weight : ℚ
deriving DecidableEq, Repr

/-- The insertion-ordered arm table `_arm_weight_table`: an
`OrderedDict[str, ArmWeight]` modelled as an association list in
insertion order. -/
abbrev ArmWeightTable := List (String × ArmWeight)

/-- `self._arm_weight_table.get(sig)`: first entry with the given key. -/
def tableGet (t : ArmWeightTable) (sig : String) : Option ArmWeight :=
  (t.find? (fun e => e.1 == sig)).map (fun e => e.2)

/-- Assignment to an existing `OrderedDict` key: the value is replaced,
the key keeps its position. -/
def tableUpdate (t : ArmWeightTable) (sig : String) (v : ArmWeight) : ArmWeightTable :=
  t.map (fun e => if e.1 = sig then (e.1, v) else e)

/-- One iteration of the constructor's `for arm, weight in zip(arms, weights)`
loop: sum the weight into an existing row for the arm's signature, else
append a fresh row. -/
def addPair (t : ArmWeightTable) (p : Arm × ℚ) : ArmWeightTable :=
  match tableGet t p.1.signature with
  | some cw => tableUpdate t p.1.signature ⟨p.1, cw.weight + p.2⟩
  | none => t ++ [(p.1.signature, ⟨p.1, p.2⟩)]

/-- The whole aggregation loop of `GeneratorRun.__init__`. -/
def buildArmWeightTable (pairs : List (Arm × ℚ)) : ArmWeightTable :=
  pairs.foldl addPair []

/-- The `GeneratorRun` value object (generator_run.py), with every field
the Python `__init__` stores.  Mutable dict-like fields are `Option Ref`
so that aliasing after `clone()` is observable. -/
structure GeneratorRun where
  armWeightTable : ArmWeightTable
  generatorRunType : Option String
  timeCreated : Nat
  optimizationConfig : Option Ref
  searchSpace : Option Ref
  modelPredictions : Option Ref
  bestArmPredictions : Option Ref
  index : Option Int
  fitTime : Option ℚ
  genTime : Option ℚ
  modelKey : Option String
  modelKwargs : Option Ref
  bridgeKwargs : Option Ref
  genMetadata : Option Ref
  modelStateAfterGen : Option Ref
  generationStepIndex : Option Int
  candidateMetadata : Option Ref
deriving DecidableEq, Repr

/-- `GeneratorRun.arms`: arms in table order. -/
def GeneratorRun.arms (g : GeneratorRun) : List Arm :=
  g.armWeightTable.map (fun e => e.2.arm)

/-- `GeneratorRun.weights`: weights in table order. -/
def GeneratorRun.weights (g : GeneratorRun) : List ℚ :=
  g.armWeightTable.map (fun e => e.2.weight)

/-- `GeneratorRun.arm_signatures`: signatures of the arms of this run
(a Python `set`; modelled as the list of signatures in table order,
membership being the only operation the code performs on it). -/
def GeneratorRun.armSignatures (g : GeneratorRun) : List String :=
  g.armWeightTable.map (fun e => e.2.arm.signature)

/-- `GeneratorRun.arm_weights`: `OrderedDict(zip(self.arms, self.weights))`. -/
def GeneratorRun.armWeights (g : GeneratorRun) : List (Arm × ℚ) :=
  g.arms.zip g.weights

/-- The constructor check `model_key is None` given that model or bridge
kwargs were provided (generator_run.py lines 146-150). -/
def kwargsMissingKey (modelKey : Option String) (modelKwargs bridgeKwargs : Option Ref) :
    Bool :=
  (bridgeKwargs.isSome || modelKwargs.isSome) && modelKey.isNone

/-- The constructor check that exactly one of model kwargs and bridge
kwargs was provided (generator_run.py lines 151-155). -/
def kwargsOneSided (modelKwargs bridgeKwargs : Option Ref) : Bool :=
  (bridgeKwargs.isSome || modelKwargs.isSome) &&
    (bridgeKwargs.isNone || modelKwargs.isNone)

/-- The constructor check on candidate metadata (generator_run.py lines
183-191): the dict is truthy (present and non-empty) and carries a key
that is not the signature of any arm of the run. -/
def candMetadataBad (sigs : List String) (candidateMetadata : Option Ref) : Bool :=
  match candidateMetadata with
  | some cm => !cm.2.isEmpty && cm.2.any (fun kv => !(sigs.contains kv.1))
  | none => false

/-- The constructor's `assert generation_step_index is None or
generation_step_index >= 0` (generator_run.py line 195), as the condition
under which the assert fires. -/
def negStepIndex (generationStepIndex : Option Int) : Bool :=
  match generationStepIndex with
  | some n => decide (n < 0)
  | none => false

/-- Body of `GeneratorRun.__init__` after the weight defaulting
(generator_run.py lines 144-196): `ws` is the effective weights list. -/
def grInitCore (arms : List Arm) (ws : List ℚ)
    (optimizationConfig : Option Ref) (searchSpace : Option Ref)
    (modelPredictions : Option Ref) (bestArmPredictions : Option Ref)
    (type : Option String) (fitTime : Option ℚ) (genTime : Option ℚ)
    (modelKey : Option String) (modelKwargs : Option Ref)
    (bridgeKwargs : Option Ref) (genMetadata : Option Ref)
    (modelStateAfterGen : Option Ref) (generationStepIndex : Option Int)
    (candidateMetadata : Option Ref) (now : Nat) :
    Except PyErr GeneratorRun :=
  if arms.length ≠ ws.length then .error .valueError
  else if kwargsMissingKey modelKey modelKwargs bridgeKwargs then
    .error .valueError
  else if kwargsOneSided modelKwargs bridgeKwargs then
    .error .valueError
  else
    let table := buildArmWeightTable (arms.zip ws)
    let sigs := table.map (fun e => e.2.arm.signature)
    -- `if candidate_metadata_by_arm_signature:` — truthy means present and
    -- non-empty; then every key must be the signature of an arm of the run.
    if candMetadataBad sigs candidateMetadata then
      .error .valueError
    else if negStepIndex generationStepIndex then
      .error .assertionError
    else
      .ok {
        armWeightTable := table
        generatorRunType := type
        timeCreated := now
        optimizationConfig := optimizationConfig
        searchSpace := searchSpace
        modelPredictions := modelPredictions
        bestArmPredictions := bestArmPredictions
        index := none
        fitTime := fitTime
        genTime := genTime
        modelKey := modelKey
        modelKwargs := modelKwargs
        bridgeKwargs := bridgeKwargs
        genMetadata := genMetadata
        modelStateAfterGen := modelStateAfterGen
        generationStepIndex := generationStepIndex
        candidateMetadata := candidateMetadata }

/-- `GeneratorRun.__init__` (generator_run.py lines 141-196).  Parameters
appear in source order; `now` stands for `datetime.now()`. Defaults the
weights to all 1.0 when omitted (lines 142-143) and runs the rest of the
constructor. Returns `.error` (and hence no partial object) exactly when
the Python constructor raises.  The negative `generation_step_index`
check is the source's `assert`, hence `.assertionError`. -/
def grInit (arms : List Arm) (weights : Option (List ℚ))
    (optimizationConfig : Option Ref) (searchSpace : Option Ref)
    (modelPredictions : Option Ref) (bestArmPredictions : Option Ref)
    (type : Option String) (fitTime : Option ℚ) (genTime : Option ℚ)
    (modelKey : Option String) (modelKwargs : Option Ref)
    (bridgeKwargs : Option Ref) (genMetadata : Option Ref)
    (modelStateAfterGen : Option Ref) (generationStepIndex : Option Int)
    (candidateMetadata : Option Ref) (now : Nat) :
    Except PyErr GeneratorRun :=
  grInitCore arms
    (match weights with
      | none => List.replicate arms.length 1
      | some w => w)
    optimizationConfig searchSpace modelPredictions bestArmPredictions
    type fitTime genTime modelKey modelKwargs bridgeKwargs genMetadata
    modelStateAfterGen generationStepIndex candidateMetadata now

/-- The `index` setter (generator_run.py lines 237-241): raises
`ValueError` when the run already carries a different index, otherwise
stores the value. -/
def GeneratorRun.setIndex (g : GeneratorRun) (i : Int) : Except PyErr GeneratorRun :=
  match g.index with
  | some cur =>
    if cur ≠ i then .error .valueError
    else .ok { g with index := some i }
  | none => .ok { g with index := some i }

/-- `GeneratorRun._unique_id` (generator_run.py lines 361-371): the string
form of the trial index if set, else of the generation-step index if
set, else `ValueError`. -/
def GeneratorRun.uniqueId (g : GeneratorRun) : Except PyErr String :=
  match g.index with
  | some i => .ok (toString i)
  | none =>
    match g.generationStepIndex with
    | some k => .ok (toString k)
    | none => .error .valueError

/-- Convenience: the `GeneratorRun` produced by a constructor call that
passes only arms and weights (every optional argument `None`). -/
def mkPlainRun (arms : List Arm) (ws : List ℚ) (now : Nat) : GeneratorRun where
  armWeightTable := buildArmWeightTable (arms.zip ws)
  generatorRunType := none
  timeCreated := now
  optimizationConfig := none
  searchSpace := none
  modelPredictions := none
  bestArmPredictions := none
  index := none
  fitTime := none
  genTime := none
  modelKey := none
  modelKwargs := none
  bridgeKwargs := none
  genMetadata := none
  modelStateAfterGen := none
  generationStepIndex := none
  candidateMetadata := none

/-- Semantic apparatus for Python in-place container mutation: write `v`
into the container at address `a`; every field of the run holding that
address sees the new contents (aliased fields change together). -/
def GeneratorRun.heapWrite (g : GeneratorRun) (a : Nat) (v : PyObj) : GeneratorRun :=
  { g with
    optimizationConfig := writeRef a v g.optimizationConfig
    searchSpace := writeRef a v g.searchSpace
    modelPredictions := writeRef a v g.modelPredictions
    bestArmPredictions := writeRef a v g.bestArmPredictions
    modelKwargs := writeRef a v g.modelKwargs
    bridgeKwargs := writeRef a v g.bridgeKwargs
    genMetadata := writeRef a v g.genMetadata
    modelStateAfterGen := writeRef a v g.modelStateAfterGen
    candidateMetadata := writeRef a v g.candidateMetadata }

/-- The addresses of all mutable containers held by a run. -/
def GeneratorRun.refAddrs (g : GeneratorRun) : List Nat :=
  (g.optimizationConfig.map Prod.fst).toList ++ (g.searchSpace.map Prod.fst).toList
    ++ (g.modelPredictions.map Prod.fst).toList
    ++ (g.bestArmPredictions.map Prod.fst).toList
    ++ (g.modelKwargs.map Prod.fst).toList ++ (g.bridgeKwargs.map Prod.fst).toList
    ++ (g.genMetadata.map Prod.fst).toList
    ++ (g.modelStateAfterGen.map Prod.fst).toList
    ++ (g.candidateMetadata.map Prod.fst).toList

/-- Invariants every successfully constructed `GeneratorRun` satisfies
(established by `grInit`; consumed by `clone`, whose nested constructor
call re-validates them). -/
def GRWellFormed (g : GeneratorRun) : Prop :=
  (g.armWeightTable.map (fun e => e.1)).Nodup ∧
  (∀ e ∈ g.armWeightTable, e.1 = e.2.arm.signature) ∧
  kwargsMissingKey g.modelKey g.modelKwargs g.bridgeKwargs = false ∧
  kwargsOneSided g.modelKwargs g.bridgeKwargs = false ∧
  candMetadataBad (g.armWeightTable.map (fun e => e.2.arm.signature))
    g.candidateMetadata = false ∧
  negStepIndex g.generationStepIndex = false

/-- `GeneratorRun.clone` (generator_run.py lines 309-353).  `now` models
`datetime.now()` inside the nested constructor call (overwritten right
afterwards); `fresh` is the base address for containers newly allocated
by the clone: `optimization_config.clone()`, `search_space.clone()` and
the two `copy.deepcopy` calls produce fresh containers with equal
contents, and after construction `model_kwargs`, `bridge_kwargs` and
`model_state_after_gen` are replaced by fresh top-level containers via
`dict.copy()`.  `gen_metadata` and `candidate_metadata_by_arm_signature`
are passed to the constructor unchanged, so the clone shares those
containers with the original. -/
def grClone (g : GeneratorRun) (now : Nat) (fresh : Nat) :
    Except PyErr GeneratorRun := do
  let candMetadata := g.candidateMetadata
  let g' ← grInit (g.arms.map Arm.clone) (some g.weights)
    (g.optimizationConfig.map (fun r => (fresh, r.2)))
    (g.searchSpace.map (fun r => (fresh + 1, r.2)))
    (g.modelPredictions.map (fun r => (fresh + 2, r.2)))
    (g.bestArmPredictions.map (fun r => (fresh + 3, r.2)))
    g.generatorRunType g.fitTime g.genTime g.modelKey
    g.modelKwargs g.bridgeKwargs g.genMetadata g.modelStateAfterGen
    g.generationStepIndex candMetadata now
  return { g' with
    timeCreated := g.timeCreated
    index := g.index
    modelKey := g.modelKey
    modelKwargs := g.modelKwargs.map (fun r => (fresh + 4, r.2))
    bridgeKwargs := g.bridgeKwargs.map (fun r => (fresh + 5, r.2))
    modelStateAfterGen := g.modelStateAfterGen.map (fun r => (fresh + 6, r.2)) }

/-- Concrete example run: one arm of signature a, weight 1, and a
gen-metadata dict living at heap address 0 (exactly the run built by
`grInit` with those arguments; see the C2 witness). -/
def sampleRun : GeneratorRun where
  armWeightTable := [("a", ⟨Arm.mk "a", 1⟩)]
  generatorRunType := none
  timeCreated := 0
  optimizationConfig := none
  searchSpace := none
  modelPredictions := none
  bestArmPredictions := none
  index := none
  fitTime := none
  genTime := none
  modelKey := none
  modelKwargs := none
  bridgeKwargs := none
  genMetadata := some (0, [("k", 1)])
  modelStateAfterGen := none
  generationStepIndex := none
  candidateMetadata := none

/-- Specification-side helper: the elements of a list not in `seen`, in
first-occurrence order (each kept once). -/
def newSigs (seen : List String) : List String → List String
  | [] => []
  | s :: rest =>
    if s ∈ seen then newSigs seen rest else s :: newSigs (seen ++ [s]) rest

/-- Specification-side helper: distinct elements in first-occurrence
order. -/
def firstOccurs (l : List String) : List String := newSigs [] l

/-- Specification-side helper: the sum of the weights of all input pairs
whose arm carries signature `k`. -/
def sigSum (pairs : List (Arm × ℚ)) (k : String) : ℚ :=
  ((pairs.filter (fun p => p.1.signature == k)).map (fun p => p.2)).sum

/-! ### Suffix-uniqueness resolver (report_utils.py lines 86-148)

Python `str` is modelled as `List Char`; the delimiter is modelled as a
single character (every call site in the repository uses the default
`"."`). -/

/-- A Python string as its character list. -/
abbrev PyStr := List Char

/-- Python `s.split(d)` for a one-character separator `d`: the maximal
delimiter-free chunks, with empty chunks where separators touch; the
empty string yields `[""]`. -/
def pySplit (d : Char) : PyStr → List PyStr
  | [] => [[]]
  | c :: cs =>
    match pySplit d cs with
    | [] => [[]]
    | g :: gs => if c = d then [] :: g :: gs else (c :: g) :: gs

/-- Python `d.join(chunks)` for a one-character separator. -/
def pyJoin (d : Char) : List PyStr → PyStr
  | [] => []
  | [g] => g
  | g :: g2 :: gs => g ++ d :: pyJoin d (g2 :: gs)

/-- Python `l[-n:]` for `n ≥ 1`: the last `n` elements (everything when
`n` exceeds the length). -/
def takeLast (n : Nat) (l : List α) : List α := l.drop (l.length - n)

/-- `_get_suffix` (report_utils.py lines 86-87): join of the last
`n_chunks` delimiter-separated chunks. -/
def _get_suffix (inputStr : PyStr) (delim : Char) (nChunks : Nat) : PyStr :=
  pyJoin delim (takeLast nChunks (pySplit delim inputStr))

/-- The insertion-ordered `suffix_dict`: a `defaultdict(list)` mapping
candidate suffixes to the input strings currently grouped under them. -/
abbrev SuffixDict := List (PyStr × List PyStr)

/-- `suffix_dict[k].append(v)` on a `defaultdict(list)`: append to the
existing group, or append a fresh singleton group at the end. -/
def dictAppend (dct : SuffixDict) (k : PyStr) (v : PyStr) : SuffixDict :=
  match dct with
  | [] => [(k, [v])]
  | e :: rest => if e.1 = k then (e.1, e.2 ++ [v]) :: rest else e :: dictAppend rest k v

/-- `new_dict[k] = vs`: replace the value at an existing key (keeping its
position), or append the binding at the end. -/
def dictSet (dct : SuffixDict) (k : PyStr) (vs : List PyStr) : SuffixDict :=
  match dct with
  | [] => [(k, vs)]
  | e :: rest => if e.1 = k then (k, vs) :: rest else e :: dictSet rest k vs

/-- All input strings stored across the groups of a suffix dict, in
iteration order. -/
def dictVals (dct : SuffixDict) : List PyStr :=
  (dct.map (fun e => e.2)).flatten

/-- Body of the resolver's inner `for suffix, suffix_str_list in
suffix_dict.items()` loop (report_utils.py lines 126-132), acting on the
pair (`new_dict`, `all_unique`): a multi-member group is re-appended
under `i`-chunk suffixes and clears `all_unique`; a singleton group is
assigned unchanged. -/
def suffixStep (delim : Char) (i : Nat) (acc : SuffixDict × Bool)
    (e : PyStr × List PyStr) : SuffixDict × Bool :=
  if e.2.length > 1 then
    (e.2.foldl (fun nd istr => dictAppend nd (_get_suffix istr delim i) istr) acc.1,
      false)
  else (dictSet acc.1 e.1 e.2, acc.2)

/-- One iteration of the resolver's main loop (report_utils.py lines
124-132): rebuild `new_dict` from `suffix_dict`, extending every
multi-member group to `i`-chunk suffixes and copying singleton groups
unchanged; the Bool is `all_unique`. -/
def suffixRound (delim : Char) (i : Nat) (sd : SuffixDict) : SuffixDict × Bool :=
  sd.foldl (suffixStep delim i) ([], true)

/-- The resolver's `for i in range(2, max_chunks + 2)` loop
(report_utils.py lines 123-140) with the two fallback exits (`break` and
loop exhaustion) returning the identity mapping; on the `all_unique`
round it returns `{group_head : suffix}` over the current
`suffix_dict`. -/
def resolveLoop (delim : Char) (inputs : List PyStr) :
    Nat → Nat → SuffixDict → List (PyStr × PyStr)
  | 0, _, _ => inputs.map (fun s => (s, s))
  | fuel + 1, i, sd =>
    let nd := suffixRound delim i sd
    if nd.2 then
      if inputs.dedup.length ≠ sd.length then inputs.map (fun s => (s, s))
      else sd.map (fun e => (e.2.headD [], e.1))
    else resolveLoop delim inputs fuel (i + 1) nd.1

/-- Python `max` over a list of naturals (the resolver applies it to a
non-empty list). -/
def maxNat (l : List Nat) : Nat := l.foldl max 0

/-- `_get_shortest_unique_suffix_dict` (report_utils.py lines 90-148) for
a one-character delimiter.  The `assert` on pairwise-distinct inputs is
`.assertionError`; Python's `max()` over an empty generator raises
`ValueError`.  (The `delim == ""` check is unrepresentable with a `Char`
delimiter.) -/
def _get_shortest_unique_suffix_dict (inputStrList : List PyStr) (delim : Char) :
    Except PyErr (List (PyStr × PyStr)) :=
  if inputStrList.length ≠ inputStrList.dedup.length then .error .assertionError
  else
    let sd0 := inputStrList.foldl
      (fun dct istr => dictAppend dct (_get_suffix istr delim 1) istr) []
    match inputStrList with
    | [] => .error .valueError
    | _ :: _ =>
      let maxChunks := maxNat (inputStrList.map (fun istr => (pySplit delim istr).length))
      if maxChunks = 1 then .ok (inputStrList.map (fun istr => (istr, istr)))
      else .ok (resolveLoop delim inputStrList maxChunks 2 sd0)

/-- Specification-side: `u` is a trailing chunk-suffix of `t` (its chunk
list is a suffix of the chunk list of `t`). -/
def chunkSuffixOf (delim : Char) (u t : PyStr) : Prop :=
  (pySplit delim u) <:+ (pySplit delim t)

/-- Specification-side: the `k`-chunk suffix of `s` differs from the
`k`-chunk suffix of every other input. -/
def UniqueAt (delim : Char) (inputs : List PyStr) (k : Nat) (s : PyStr) : Prop :=
  ∀ t ∈ inputs, t ≠ s → _get_suffix t delim k ≠ _get_suffix s delim k

/-- The main-loop invariant at the start of the round with extension
level `i`, for `K` assigning to every input its minimal
unique-suffix-at-equal-level length: every group member is an input keyed
by its suffix at level `min (i-1) (K s)`; the groups partition the
inputs; keys are distinct. -/
def RoundInv (delim : Char) (inputs : List PyStr) (K : PyStr → Nat) (i : Nat)
    (sd : SuffixDict) : Prop :=
  (∀ e ∈ sd, e.2 ≠ [] ∧ ∀ s ∈ e.2,
    s ∈ inputs ∧ e.1 = _get_suffix s delim (min (i - 1) (K s))) ∧
  (dictVals sd).Perm inputs ∧
  (sd.map (fun e => e.1)).Nodup

/-! ### report_utils: dataframes, experiments and plots (report_utils.py)

Pandas and plotly are external libraries, not part of this repository: a
dataframe is modelled as a list of rows, each row an association list from
column name to cell value, and the pandas/plotly operations that
`exp_to_df`, `get_best_trial` and `get_standard_plots` invoke are modelled
as explicit functions on that representation. -/

/-- A dataframe cell: int, string, float (exact rational) or missing
(pandas NaN / Python None). -/
inductive Val where
  | i (n : Int)
  | s (str : String)
  | f (q : ℚ)
  | none
deriving DecidableEq, Repr

/-- A dataframe row: column name to cell. -/
abbrev Row := List (String × Val)

/-- Reading a column of a row (a missing column reads as a missing cell). -/
def rowGet (r : Row) (c : String) : Val := (r.lookup c).getD Val.none

/-- `df[c] = v` on one row: overwrite the binding in place, or append it. -/
def rowSet (r : Row) (c : String) (v : Val) : Row :=
  match r with
  | [] => [(c, v)]
  | e :: rest => if e.1 = c then (c, v) :: rest else e :: rowSet rest c v

/-- Drop a column from a row (pandas `drop(col, axis=1)`; also the join
column of the right table in `merge`). -/
def rowDrop (r : Row) (c : String) : Row := r.filter (fun e => !(e.1 == c))

/-- `df[c] = vals`: set a column from a value list aligned with the rows. -/
def setCol (rows : List Row) (c : String) (vals : List Val) : List Row :=
  (rows.zip vals).map (fun p => rowSet p.1 c p.2)

/-- Python `str()` of a cell (`astype("str")` while building the key
column). -/
def valStr : Val → String
  | .i n => toString n
  | .s str => str
  | .f q => toString q
  | .none => "None"

/-- Python truthiness of a cell (the `any` / `all` tests over
`run_metadata` values). -/
def valTruthy : Val → Bool
  | .i n => n != 0
  | .s str => str != ""
  | .f q => q != 0
  | .none => false

/-- Lexicographic order on character lists (string `<`). -/
def charsLt : List Char → List Char → Bool
  | [], [] => false
  | [], _ :: _ => true
  | _ :: _, [] => false
  | c :: cs, d :: ds => if c = d then charsLt cs ds else decide (c < d)

/-- Comparison of cells, for `sort_values` and pandas' sorted pivot index
(only like-typed cells are meaningfully ordered). -/
def valLe : Val → Val → Bool
  | .i a, .i b => decide (a ≤ b)
  | .s a, .s b => a == b || charsLt a.data b.data
  | .f a, .f b => decide (a ≤ b)
  | _, _ => true

/-- Stable insertion into a sorted list: an element ties with the sorted
prefix keep their existing order. -/
def insertVal (v : Val) : List Val → List Val
  | [] => [v]
  | x :: xs => if valLe x v then x :: insertVal v xs else v :: x :: xs

/-- Ascending sort of cell values (pandas sorts the pivot index and
columns). -/
def sortVals (l : List Val) : List Val :=
  l.foldl (fun acc v => insertVal v acc) []

/-- Lexicographic row comparison by the named columns
(`sort_values(by)`). -/
def rowLeBy (cols : List String) (r1 r2 : Row) : Bool :=
  match cols with
  | [] => true
  | c :: cs =>
    if rowGet r1 c == rowGet r2 c then rowLeBy cs r1 r2
    else valLe (rowGet r1 c) (rowGet r2 c)

/-- Stable insertion of a row into a sorted list. -/
def insertRow (le : Row → Row → Bool) (r : Row) : List Row → List Row
  | [] => [r]
  | x :: xs => if le x r then x :: insertRow le r xs else r :: x :: xs

/-- pandas `sort_values(by=cols)`: sort the rows by the named columns. -/
def sortRows (cols : List String) (rows : List Row) : List Row :=
  rows.foldl (fun acc r => insertRow (rowLeBy cols) r acc) []

/-- pandas `pivot(index, columns, values).reset_index()`: one output row
per distinct index value (ascending), one column per distinct column value
(ascending), each cell the `values` entry of the unique input row with
that (index, column) pair; a duplicate pair raises ValueError. -/
def pivotDf (rows : List Row) (idxCol colCol valCol : String) :
    Except PyErr (List Row) :=
  if rows.any (fun r => decide (1 < rows.countP (fun r2 =>
      rowGet r2 idxCol == rowGet r idxCol && rowGet r2 colCol == rowGet r colCol)))
  then Except.error PyErr.valueError
  else
    Except.ok ((sortVals ((rows.map (fun r => rowGet r idxCol)).dedup)).map (fun k =>
      (idxCol, k) :: (sortVals ((rows.map (fun r => rowGet r colCol)).dedup)).map
        (fun c => (valStr c,
          ((rows.find? (fun r => rowGet r idxCol == k && rowGet r colCol == c)).map
            (fun r => rowGet r valCol)).getD Val.none))))

/-- pandas inner `merge(left, right, on=c)`: left-row order, each left row
joined with every matching right row, the join column kept once. -/
def mergeOn (left right : List Row) (c : String) : List Row :=
  (left.map (fun lr =>
    (right.filter (fun rr => rowGet rr c == rowGet lr c)).map
      (fun rr => lr ++ rowDrop rr c))).flatten

/-- pandas `drop_duplicates`: keep the first occurrence of each row. -/
def dropDuplicates (rows : List Row) : List Row :=
  rows.foldl (fun acc r => if r ∈ acc then acc else acc ++ [r]) []

/-- `trial.status.name` and `trial.run_metadata` of one trial. -/
structure TrialM where
  status : String
  runMetadata : List (String × Val)
deriving DecidableEq

/-- The experiment objective: a plain single-metric objective (the metric
identified by its name), a MultiObjective, or a ScalarizedObjective. -/
inductive Objective where
  | plain (metric : String) (minimize : Bool)
  | multi
  | scalarized
deriving DecidableEq

/-- `OptimizationConfig`: the slice the report utilities read. -/
structure OptConfig where
  objective : Objective
deriving DecidableEq

/-- The slice of `Experiment` read by `exp_to_df`, `get_best_trial` and
`get_standard_plots`: `fetch_data(metrics).df` as a function of the
optional metric list (long format with `trial_index`, `arm_name`,
`metric_name` and `mean` columns), `arms_by_name` with each arm's
parameters, `trials` keyed by index, the optimization config, the names of
the search space's range parameters, and whether the experiment is a
MultiTypeExperiment. -/
structure AxExperiment where
  optimizationConfig : Option OptConfig
  fetchedDf : Option (List String) → List Row
  armsByName : List (String × List (String × Val))
  trials : List (Int × TrialM)
  rangeParams : List String
  isMultiType : Bool

/-- A Python dict keyed by trial index (`trial_to_status`,
`trial_to_metadata_field`), read back at a dataframe cell; a miss is a
KeyError at the call site. -/
def dictAtIndex {α : Type} (l : List (Int × α)) (v : Val) : Option α :=
  match v with
  | .i n => l.lookup n
  | _ => Option.none

/-- `exp_to_df` (report_utils.py lines 228-323).  The `**kwargs` passthrough
and the runtime type check on `run_metadata_fields` are unrepresentable in
this typed embedding; everything else follows the source line by line. -/
def exp_to_df (exp : AxExperiment) (metrics : Option (List String))
    (key_components : Option (List String))
    (run_metadata_fields : Option (List String)) : Except PyErr (List Row) :=
  let kc := match key_components with
    | Option.none => ["trial_index", "arm_name"]
    | some l => if l.isEmpty then ["trial_index", "arm_name"] else l
  if exp.isMultiType then Except.error PyErr.valueError
  else
    let results := exp.fetchedDf metrics
    if results.length = 0 then Except.ok results
    else
      let key_col := String.intercalate "-" kc
      let key_vals := results.map (fun r =>
        (kc.map (fun c => valStr (rowGet r c))).foldl String.append "")
      let results := setCol results key_col (key_vals.map Val.s)
      do
        let metric_vals ← pivotDf results key_col "metric_name" "mean"
        let metadata := dropDuplicates (results.map (fun r =>
          (kc ++ [key_col]).map (fun c => (c, rowGet r c))))
        let metric_and_metadata := mergeOn metric_vals metadata key_col
        let arm_names_and_params := exp.armsByName.map (fun p =>
          ("arm_name", Val.s p.1) :: p.2)
        let exp_df := mergeOn metric_and_metadata arm_names_and_params "arm_name"
        let statusVals ← exp_df.mapM (fun r =>
          match dictAtIndex exp.trials (rowGet r "trial_index") with
          | some t => Except.ok (Val.s t.status)
          | Option.none => Except.error PyErr.keyError)
        let exp_df := setCol exp_df "trial_status" statusVals
        match run_metadata_fields with
        | Option.none =>
          Except.ok (sortRows kc (exp_df.map (fun r => rowDrop r key_col)))
        | some fields =>
          let exp_df ← fields.foldlM (fun df field =>
            let tvals := exp.trials.map (fun p =>
              (p.1, (p.2.runMetadata.lookup field).getD Val.none))
            if tvals.any (fun p => valTruthy p.2) then
              do
                let colVals ← df.mapM (fun r =>
                  match dictAtIndex tvals (rowGet r "trial_index") with
                  | some v => Except.ok v
                  | Option.none => Except.error PyErr.keyError)
                pure (setCol df field colVals)
            else pure df) exp_df
          Except.ok (sortRows kc (exp_df.map (fun r => rowDrop r key_col)))

/-- Lines 367-370 of `get_best_trial`: append the objective metric to the
caller's `additional_metrics` list when a list was given and lacks it (in
Python this mutates the caller's list in place). -/
def amWithObjective (additional_metrics : Option (List String))
    (metric : String) : Option (List String) :=
  match additional_metrics with
  | Option.none => Option.none
  | some ms => if metric ∈ ms then some ms else some (ms ++ [metric])

/-- pandas `Series.min` over a column: the least float cell, skipping
missing cells; NaN when there are none. -/
def colMin (rows : List Row) (c : String) : Val :=
  match (rows.map (fun r => rowGet r c)).filterMap (fun v =>
      match v with | .f q => some q | _ => Option.none) with
  | [] => Val.none
  | q :: qs => Val.f (qs.foldl min q)

/-- pandas `Series.max` over a column. -/
def colMax (rows : List Row) (c : String) : Val :=
  match (rows.map (fun r => rowGet r c)).filterMap (fun v =>
      match v with | .f q => some q | _ => Option.none) with
  | [] => Val.none
  | q :: qs => Val.f (qs.foldl max q)

/-- pandas `==` on cells: a missing cell (NaN) compares unequal to
everything, itself included. -/
def cellEq (a b : Val) : Bool :=
  match a, b with
  | Val.none, _ => false
  | _, Val.none => false
  | a, b => a == b

/-- `get_best_trial` (report_utils.py lines 326-386).  The first component
is the final state of the caller's `additional_metrics` list (Python
mutates it in place before fetching, so the mutation persists even when
`exp_to_df` then raises); the second is the returned optional 1-row
dataframe, or the propagated error. -/
def get_best_trial (exp : AxExperiment)
    (additional_metrics : Option (List String))
    (key_components : Option (List String))
    (run_metadata_fields : Option (List String)) :
    Option (List String) × Except PyErr (Option (List Row)) :=
  match exp.optimizationConfig with
  | Option.none => (additional_metrics, Except.error PyErr.valueError)
  | some cfg =>
    match cfg.objective with
    | Objective.multi => (additional_metrics, Except.ok Option.none)
    | Objective.scalarized => (additional_metrics, Except.ok Option.none)
    | Objective.plain metric minimize =>
      let am := amWithObjective additional_metrics metric
      (am, do
        let trials_df ← exp_to_df exp am key_components run_metadata_fields
        if trials_df.length = 0 then pure Option.none
        else
          let metric_optimum := if minimize then colMin trials_df metric
            else colMax trials_df metric
          pure (some ((trials_df.filter
            (fun r => cellEq (rowGet r metric) metric_optimum)).take 1)))

/-- An opaque plotly figure. -/
structure Figure where
  fid : Nat
deriving DecidableEq

/-- The external plotly entry points `get_standard_plots` invokes:
`optimization_trace_single_method_plotly` consuming the fetched `mean`
column, and `plot_slice_plotly` / `interact_contour_plotly`, each of which
may raise (e.g. NotImplementedError when the model cannot predict). -/
structure PlotDeps where
  optTracePlotly : List Val → Option Figure
  slicePlotly : Except PyErr Figure
  contourPlotly : Except PyErr Figure

/-- The slice of `GenerationStrategy` that `get_standard_plots` reads:
`model_transitions`, and whether `model` is set (`not_none` raises
ValueError when it is not). -/
structure GenStrategy where
  modelTransitions : List Int
  model : Option Unit

/-- `_get_objective_trace_plot` (report_utils.py lines 34-49): fetch the
experiment data and hand the `mean` column to the trace plotter. -/
def _get_objective_trace_plot (deps : PlotDeps) (exp : AxExperiment) :
    Option Figure :=
  deps.optTracePlotly ((exp.fetchedDf Option.none).map (fun r => rowGet r "mean"))

/-- `_get_objective_v_param_plot` (report_utils.py lines 52-83): a slice
plot for one range parameter, a contour plot for several, None for
none. -/
def _get_objective_v_param_plot (deps : PlotDeps) (exp : AxExperiment) :
    Except PyErr (Option Figure) :=
  if exp.rangeParams.length = 1 then
    do pure (some (← deps.slicePlotly))
  else if 1 < exp.rangeParams.length then
    do pure (some (← deps.contourPlotly))
  else Except.ok Option.none

/-- `get_standard_plots` (report_utils.py lines 151-225): empty list for a
MultiObjective or ScalarizedObjective experiment or when the fetched data
is empty; else the trace plot, then (inside a try that swallows only
NotImplementedError) the parameter plot with `not_none(model)` raising
ValueError, with None entries filtered from the result. -/
def get_standard_plots (deps : PlotDeps) (experiment : AxExperiment)
    (generation_strategy : GenStrategy) : Except PyErr (List Figure) :=
  match experiment.optimizationConfig with
  | Option.none => Except.error PyErr.valueError
  | some cfg =>
    match cfg.objective with
    | Objective.multi => Except.ok []
    | Objective.scalarized => Except.ok []
    | Objective.plain _ _ =>
      if (experiment.fetchedDf Option.none).isEmpty then Except.ok []
      else
        let first := _get_objective_trace_plot deps experiment
        let second : Except PyErr (Option (Option Figure)) :=
          match generation_strategy.model with
          | Option.none => Except.error PyErr.valueError
          | some _ =>
            match _get_objective_v_param_plot deps experiment with
            | Except.ok v => Except.ok (some v)
            | Except.error PyErr.notImplemented => Except.ok Option.none
            | Except.error e => Except.error e
        do
          let sp ← second
          let plots := match sp with
            | Option.none => [first]
            | some v => [first, v]
          Except.ok (plots.filterMap (fun x => x))

/-- A concrete minimizing experiment whose three trials score 5.0, 2.0 and
8.0 on the single objective metric `m`. -/
def bestTrialSample : AxExperiment where
  optimizationConfig := some ⟨Objective.plain "m" true⟩
  fetchedDf := fun _ =>
    [[("trial_index", Val.i 0), ("arm_name", Val.s "0_0"),
      ("metric_name", Val.s "m"), ("mean", Val.f 5)],
     [("trial_index", Val.i 1), ("arm_name", Val.s "1_0"),
      ("metric_name", Val.s "m"), ("mean", Val.f 2)],
     [("trial_index", Val.i 2), ("arm_name", Val.s "2_0"),
      ("metric_name", Val.s "m"), ("mean", Val.f 8)]]
  armsByName := [("0_0", []), ("1_0", []), ("2_0", [])]
  trials := [(0, ⟨"COMPLETED", []⟩), (1, ⟨"COMPLETED", []⟩),
    (2, ⟨"COMPLETED", []⟩)]
  rangeParams := ["x"]
  isMultiType := false

/-- The table `exp_to_df` produces for `bestTrialSample`. -/
def bestTrialDf : List Row :=
  [[("m", Val.f 5), ("trial_index", Val.i 0), ("arm_name", Val.s "0_0"),
    ("trial_status", Val.s "COMPLETED")],
   [("m", Val.f 2), ("trial_index", Val.i 1), ("arm_name", Val.s "1_0"),
    ("trial_status", Val.s "COMPLETED")],
   [("m", Val.f 8), ("trial_index", Val.i 2), ("arm_name", Val.s "2_0"),
    ("trial_status", Val.s "COMPLETED")]]

/-- A concrete experiment whose data fetches come back empty. -/
def emptyDataExp : AxExperiment where
  optimizationConfig := some ⟨Objective.plain "m" true⟩
  fetchedDf := fun _ => []
  armsByName := []
  trials := []
  rangeParams := []
  isMultiType := false

/-! ### Lemmas about the arm-weight table -/

lemma tableGet_nil (k : String) : tableGet [] k = none := rfl

lemma tableGet_cons (e : String × ArmWeight) (t : ArmWeightTable) (k : String) :
    tableGet (e :: t) k = if e.1 = k then some e.2 else tableGet t k := by
  rcases Decidable.em (e.1 = k) with h | h
  · rw [if_pos h]
    unfold tableGet
    rw [List.find?_cons_of_pos _ (by simpa using h)]
    rfl
  · rw [if_neg h]
    unfold tableGet
    rw [List.find?_cons_of_neg _ (by simpa using h)]

lemma tableGet_none_iff (t : ArmWeightTable) (k : String) :
    tableGet t k = none ↔ k ∉ t.map (fun e => e.1) := by
  induction t with
  | nil => simp [tableGet_nil]
  | cons e t ih =>
    rw [tableGet_cons]
    by_cases h : e.1 = k
    · simp [h]
    · rw [if_neg h, ih]
      simp only [List.map_cons, List.mem_cons, not_or]
      constructor
      · intro hk
        exact ⟨fun hh => h hh.symm, hk⟩
      · intro hk
        exact hk.2

lemma tableUpdate_cons (e : String × ArmWeight) (t : ArmWeightTable)
    (k : String) (v : ArmWeight) :
    tableUpdate (e :: t) k v
      = (if e.1 = k then (e.1, v) else e) :: tableUpdate t k v := by
  simp [tableUpdate]

lemma tableUpdate_keys (t : ArmWeightTable) (k : String) (v : ArmWeight) :
    (tableUpdate t k v).map (fun e => e.1) = t.map (fun e => e.1) := by
  induction t with
  | nil => rfl
  | cons e t ih =>
    rw [tableUpdate_cons]
    by_cases h : e.1 = k <;> simp [h, ih]

lemma tableGet_update_other (t : ArmWeightTable) (k k' : String) (v : ArmWeight)
    (h : k' ≠ k) : tableGet (tableUpdate t k v) k' = tableGet t k' := by
  induction t with
  | nil => rfl
  | cons e t ih =>
    rw [tableUpdate_cons]
    by_cases he : e.1 = k
    · rw [if_pos he, tableGet_cons, tableGet_cons]
      have h1 : ¬ e.1 = k' := by rw [he]; exact fun hh => h hh.symm
      simp [h1, ih]
    · rw [if_neg he, tableGet_cons, tableGet_cons, ih]

lemma tableGet_update_self (t : ArmWeightTable) (k : String) (v : ArmWeight)
    (cw : ArmWeight) (h : tableGet t k = some cw) :
    tableGet (tableUpdate t k v) k = some v := by
  induction t with
  | nil => simp [tableGet_nil] at h
  | cons e t ih =>
    rw [tableGet_cons] at h
    rw [tableUpdate_cons]
    by_cases he : e.1 = k
    · rw [if_pos he, tableGet_cons]
      simp [he]
    · rw [if_neg he, tableGet_cons, if_neg he]
      rw [if_neg he] at h
      exact ih h

lemma tableGet_append_left (t t2 : ArmWeightTable) (k : String) (cw : ArmWeight)
    (h : tableGet t k = some cw) : tableGet (t ++ t2) k = some cw := by
  induction t with
  | nil => simp [tableGet_nil] at h
  | cons e t ih =>
    rw [tableGet_cons] at h
    rw [List.cons_append, tableGet_cons]
    by_cases he : e.1 = k
    · rwa [if_pos he] at h ⊢
    · rw [if_neg he] at h ⊢
      exact ih h

lemma tableGet_append_none (t t2 : ArmWeightTable) (k : String)
    (h : tableGet t k = none) : tableGet (t ++ t2) k = tableGet t2 k := by
  induction t with
  | nil => simp
  | cons e t ih =>
    rw [tableGet_cons] at h
    rw [List.cons_append, tableGet_cons]
    by_cases he : e.1 = k
    · rw [if_pos he] at h; exact absurd h (by simp)
    · rw [if_neg he] at h
      rw [if_neg he]
      exact ih h

lemma tableGet_of_mem_nodup (t : ArmWeightTable) (e : String × ArmWeight)
    (hnd : (t.map (fun x => x.1)).Nodup) (he : e ∈ t) :
    tableGet t e.1 = some e.2 := by
  induction t with
  | nil => cases he
  | cons a t ih =>
    rw [List.map_cons, List.nodup_cons] at hnd
    rw [tableGet_cons]
    rcases List.mem_cons.1 he with rfl | hmem
    · simp
    · have : a.1 ≠ e.1 := by
        intro hh
        exact hnd.1 (hh ▸ List.mem_map_of_mem (fun x => x.1) hmem)
      rw [if_neg this]
      exact ih hnd.2 hmem

/-! ### Lemmas about first-occurrence orders and the aggregation fold -/

lemma mem_newSigs (l : List String) : ∀ seen x,
    x ∈ newSigs seen l ↔ (x ∈ l ∧ x ∉ seen) := by
  induction l with
  | nil => intro seen x; simp [newSigs]
  | cons s rest ih =>
    intro seen x
    by_cases hs : s ∈ seen
    · rw [newSigs, if_pos hs, ih]
      simp only [List.mem_cons]
      constructor
      · intro hk
        exact ⟨Or.inr hk.1, hk.2⟩
      · rintro ⟨rfl | hmem, hnotin⟩
        · exact absurd hs hnotin
        · exact ⟨hmem, hnotin⟩
    · rw [newSigs, if_neg hs]
      constructor
      · intro hx
        rcases List.mem_cons.1 hx with rfl | hx2
        · exact ⟨List.mem_cons_self _ _, hs⟩
        · rcases (ih _ x).1 hx2 with ⟨hmem, hno⟩
          refine ⟨List.mem_cons_of_mem _ hmem, fun hseen => hno ?_⟩
          exact List.mem_append_left _ hseen
      · intro hx
        rcases List.mem_cons.1 hx.1 with rfl | hmem
        · exact List.mem_cons_self _ _
        · by_cases hxs : x = s
          · exact hxs ▸ List.mem_cons_self _ _
          · refine List.mem_cons_of_mem _ ((ih _ x).2 ⟨hmem, ?_⟩)
            intro hsa
            rcases List.mem_append.1 hsa with h1 | h1
            · exact hx.2 h1
            · exact hxs (List.mem_singleton.1 h1)

lemma newSigs_nodup (l : List String) : ∀ seen, (newSigs seen l).Nodup := by
  induction l with
  | nil => intro seen; simp [newSigs]
  | cons s rest ih =>
    intro seen
    by_cases hs : s ∈ seen
    · rw [newSigs, if_pos hs]; exact ih seen
    · rw [newSigs, if_neg hs]
      refine List.nodup_cons.2 ⟨?_, ih _⟩
      intro hmem
      rcases (mem_newSigs rest _ s).1 hmem with ⟨-, hno⟩
      exact hno (by simp)

lemma firstOccurs_nodup (l : List String) : (firstOccurs l).Nodup :=
  newSigs_nodup l []

lemma mem_firstOccurs (l : List String) (x : String) :
    x ∈ firstOccurs l ↔ x ∈ l := by
  rw [firstOccurs, mem_newSigs]
  simp

lemma firstOccurs_length_eq_dedup (l : List String) :
    (firstOccurs l).length = l.dedup.length := by
  have h1 : (firstOccurs l).toFinset = l.dedup.toFinset := by
    apply Finset.ext
    intro a
    simp [List.mem_toFinset, mem_firstOccurs, List.mem_dedup]
  have h2 := List.toFinset_card_of_nodup (firstOccurs_nodup l)
  have h3 := List.toFinset_card_of_nodup (List.nodup_dedup l)
  rw [← h2, ← h3, h1]

lemma foldl_addPair_keys (ps : List (Arm × ℚ)) : ∀ t : ArmWeightTable,
    (List.foldl addPair t ps).map (fun e => e.1)
      = t.map (fun e => e.1)
        ++ newSigs (t.map (fun e => e.1)) (ps.map (fun p => p.1.signature)) := by
  induction ps with
  | nil => intro t; simp [newSigs]
  | cons p ps ih =>
    intro t
    rw [List.foldl_cons, List.map_cons]
    by_cases h : p.1.signature ∈ t.map (fun e => e.1)
    · rcases hget : tableGet t p.1.signature with - | cw
      · exact absurd ((tableGet_none_iff t _).1 hget) (by simpa using h)
      · have haddp : addPair t p = tableUpdate t p.1.signature
            ⟨p.1, cw.weight + p.2⟩ := by
          rw [addPair, hget]
        rw [haddp, ih, tableUpdate_keys, newSigs, if_pos h]
    · rcases hget : tableGet t p.1.signature with - | cw
      · have haddp : addPair t p = t ++ [(p.1.signature, ⟨p.1, p.2⟩)] := by
          rw [addPair, hget]
        rw [haddp, ih, newSigs, if_neg h]
        simp [List.append_assoc]
      · exact absurd ((tableGet_none_iff t _).2 h) (by simp [hget])

lemma sigSum_cons (p : Arm × ℚ) (ps : List (Arm × ℚ)) (k : String) :
    sigSum (p :: ps) k
      = (if p.1.signature = k then p.2 else 0) + sigSum ps k := by
  by_cases h : p.1.signature = k
  · rw [if_pos h, sigSum, sigSum, List.filter_cons_of_pos (by simpa using h)]
    simp
  · rw [if_neg h, sigSum, sigSum, List.filter_cons_of_neg (by simpa using h)]
    simp

lemma tableGet_foldl_some (ps : List (Arm × ℚ)) :
    ∀ (t : ArmWeightTable) (k : String) (cw : ArmWeight),
    tableGet t k = some cw →
    ∃ a, tableGet (List.foldl addPair t ps) k
      = some ⟨a, cw.weight + sigSum ps k⟩ := by
  induction ps with
  | nil =>
    intro t k cw h
    refine ⟨cw.arm, ?_⟩
    rw [List.foldl_nil, h]
    have : sigSum [] k = 0 := by simp [sigSum]
    rw [this, add_zero]
  | cons p ps ih =>
    intro t k cw h
    rw [List.foldl_cons]
    by_cases hk : p.1.signature = k
    · have hget : tableGet t p.1.signature = some cw := by rwa [hk]
      have haddp : addPair t p = tableUpdate t p.1.signature
          ⟨p.1, cw.weight + p.2⟩ := by
        rw [addPair, hget]
      have hup : tableGet (addPair t p) k = some ⟨p.1, cw.weight + p.2⟩ := by
        rw [haddp, ← hk]
        exact tableGet_update_self t _ _ cw hget
      rcases ih (addPair t p) k _ hup with ⟨a, ha⟩
      refine ⟨a, ?_⟩
      rw [ha, sigSum_cons, if_pos hk]
      ring_nf
    · have hne : tableGet (addPair t p) k = some cw := by
        rcases hget : tableGet t p.1.signature with - | cw'
        · have haddp : addPair t p = t ++ [(p.1.signature, ⟨p.1, p.2⟩)] := by
            rw [addPair, hget]
          rw [haddp, tableGet_append_left t _ k cw h]
        · have haddp : addPair t p = tableUpdate t p.1.signature
              ⟨p.1, cw'.weight + p.2⟩ := by
            rw [addPair, hget]
          rw [haddp, tableGet_update_other t _ k _ (fun hh => hk hh.symm), h]
      rcases ih (addPair t p) k cw hne with ⟨a, ha⟩
      refine ⟨a, ?_⟩
      rw [ha, sigSum_cons, if_neg hk, zero_add]

lemma tableGet_foldl_none (ps : List (Arm × ℚ)) :
    ∀ (t : ArmWeightTable) (k : String),
    tableGet t k = none →
    k ∈ ps.map (fun p => p.1.signature) →
    ∃ a, tableGet (List.foldl addPair t ps) k = some ⟨a, sigSum ps k⟩ := by
  induction ps with
  | nil => intro t k _ hmem; cases hmem
  | cons p ps ih =>
    intro t k h hmem
    rw [List.foldl_cons]
    by_cases hk : p.1.signature = k
    · have hget : tableGet t p.1.signature = none := by rwa [hk]
      have haddp : addPair t p = t ++ [(p.1.signature, ⟨p.1, p.2⟩)] := by
        rw [addPair, hget]
      have hbase : tableGet (addPair t p) k = some ⟨p.1, p.2⟩ := by
        rw [haddp, tableGet_append_none t _ k h, tableGet_cons, if_pos hk]
      rcases tableGet_foldl_some ps (addPair t p) k _ hbase with ⟨a, ha⟩
      refine ⟨a, ?_⟩
      rw [ha, sigSum_cons, if_pos hk]
    · have hmem' : k ∈ ps.map (fun p => p.1.signature) := by
        rw [List.map_cons] at hmem
        rcases List.mem_cons.1 hmem with hh | hh
        · exact absurd hh.symm hk
        · exact hh
      have hne : tableGet (addPair t p) k = none := by
        rcases hget : tableGet t p.1.signature with - | cw'
        · have haddp : addPair t p = t ++ [(p.1.signature, ⟨p.1, p.2⟩)] := by
            rw [addPair, hget]
          rw [haddp, tableGet_append_none t _ k h, tableGet_cons, if_neg hk,
            tableGet_nil]
        · have haddp : addPair t p = tableUpdate t p.1.signature
              ⟨p.1, cw'.weight + p.2⟩ := by
            rw [addPair, hget]
          rw [haddp, tableGet_update_other t _ k _ (fun hh => hk hh.symm), h]
      rcases ih (addPair t p) k hne hmem' with ⟨a, ha⟩
      refine ⟨a, ?_⟩
      rw [ha, sigSum_cons, if_neg hk, zero_add]

lemma foldl_addPair_key_sig (ps : List (Arm × ℚ)) :
    ∀ t : ArmWeightTable, (∀ e ∈ t, e.1 = e.2.arm.signature) →
    ∀ e ∈ List.foldl addPair t ps, e.1 = e.2.arm.signature := by
  induction ps with
  | nil => intro t ht; simpa using ht
  | cons p ps ih =>
    intro t ht
    rw [List.foldl_cons]
    refine ih (addPair t p) ?_
    intro e he
    rcases hget : tableGet t p.1.signature with - | cw
    · rw [addPair, hget] at he
      rcases List.mem_append.1 he with hh | hh
      · exact ht e hh
      · rcases List.mem_singleton.1 hh with rfl
        rfl
    · rw [addPair, hget] at he
      unfold tableUpdate at he
      rcases List.mem_map.1 he with ⟨e₀, he₀, heq⟩
      by_cases hsig : e₀.1 = p.1.signature
      · rw [if_pos hsig] at heq
        rw [← heq, hsig]
      · rw [if_neg hsig] at heq
        rw [← heq]
        exact ht e₀ he₀

lemma build_spec (arms : List Arm) (ws : List ℚ) (hl : arms.length = ws.length) :
    (buildArmWeightTable (arms.zip ws)).map (fun e => e.2.arm.signature)
        = firstOccurs (arms.map Arm.signature) ∧
    (buildArmWeightTable (arms.zip ws)).length
        = (arms.map Arm.signature).dedup.length ∧
    (buildArmWeightTable (arms.zip ws)).map (fun e => e.2.weight)
        = (firstOccurs (arms.map Arm.signature)).map (sigSum (arms.zip ws)) := by
  have hsig : (arms.zip ws).map (fun p => p.1.signature) = arms.map Arm.signature := by
    have h1 : (arms.zip ws).map (fun p => p.1.signature)
        = ((arms.zip ws).map Prod.fst).map Arm.signature := by
      rw [List.map_map]
      rfl
    rw [h1, List.map_fst_zip arms ws (le_of_eq hl)]
  have hkeys : (buildArmWeightTable (arms.zip ws)).map (fun e => e.1)
      = firstOccurs (arms.map Arm.signature) := by
    rw [buildArmWeightTable, foldl_addPair_keys]
    simp only [List.map_nil, List.nil_append]
    rw [hsig]
    rfl
  have hks : ∀ e ∈ buildArmWeightTable (arms.zip ws), e.1 = e.2.arm.signature :=
    foldl_addPair_key_sig _ [] (by simp)
  have hsigmap : (buildArmWeightTable (arms.zip ws)).map (fun e => e.2.arm.signature)
      = (buildArmWeightTable (arms.zip ws)).map (fun e => e.1) :=
    (List.map_congr_left hks).symm
  refine ⟨by rw [hsigmap, hkeys], ?_, ?_⟩
  · have : (buildArmWeightTable (arms.zip ws)).length
        = ((buildArmWeightTable (arms.zip ws)).map (fun e => e.1)).length := by
      rw [List.length_map]
    rw [this, hkeys, firstOccurs_length_eq_dedup]
  · have hpt : ∀ e ∈ buildArmWeightTable (arms.zip ws),
        e.2.weight = sigSum (arms.zip ws) e.1 := by
      intro e he
      have hnd : ((buildArmWeightTable (arms.zip ws)).map (fun e => e.1)).Nodup := by
        rw [hkeys]
        exact firstOccurs_nodup _
      have h1 : tableGet (buildArmWeightTable (arms.zip ws)) e.1 = some e.2 :=
        tableGet_of_mem_nodup _ e hnd he
      have hmemk : e.1 ∈ (arms.zip ws).map (fun p => p.1.signature) := by
        rw [hsig]
        have h2 : e.1 ∈ (buildArmWeightTable (arms.zip ws)).map (fun e => e.1) :=
          List.mem_map_of_mem _ he
        rw [hkeys, mem_firstOccurs] at h2
        exact h2
      obtain ⟨a, ha⟩ := tableGet_foldl_none (arms.zip ws) [] e.1 rfl hmemk
      rw [buildArmWeightTable] at h1
      rw [h1] at ha
      have := Option.some.inj ha
      rw [this]
    have hmapw : (buildArmWeightTable (arms.zip ws)).map (fun e => e.2.weight)
        = (buildArmWeightTable (arms.zip ws)).map (fun e => sigSum (arms.zip ws) e.1) :=
      List.map_congr_left hpt
    rw [hmapw, ← hkeys, List.map_map]
    rfl

lemma grInit_plain (arms : List Arm) (ws : List ℚ) (now : Nat)
    (hl : arms.length = ws.length) :
    grInit arms (some ws) none none none none none none none none none
      none none none none none now = .ok (mkPlainRun arms ws now) := by
  unfold grInit grInitCore kwargsMissingKey kwargsOneSided candMetadataBad
    negStepIndex mkPlainRun
  simp [hl]

lemma grInit_plain_defaultw (arms : List Arm) (now : Nat) :
    grInit arms none none none none none none none none none none
      none none none none none now
      = .ok (mkPlainRun arms (List.replicate arms.length 1) now) := by
  unfold grInit grInitCore kwargsMissingKey kwargsOneSided candMetadataBad
    negStepIndex mkPlainRun
  simp

/-- C1: constructing a GeneratorRun from a list of arms with an optional
parallel list of weights (defaulted to all 1.0 when omitted) yields an
arm table whose length is the number of distinct arm signatures, whose
rows are in first-occurrence order of those signatures, and whose weight
at each row is the sum of the input weights of all arms sharing that
row's signature; the `arms` and `weights` accessors return exactly these
rows in table order. -/
theorem claim_C1 (arms : List Arm) (weights : Option (List ℚ)) (now : Nat)
    (hlen : ∀ ws, weights = some ws → ws.length = arms.length) :
    ∃ g, grInit arms weights none none none none none none none none none
        none none none none none now = .ok g ∧
      g.arms.map Arm.signature = firstOccurs (arms.map Arm.signature) ∧
      g.armWeightTable.length = (arms.map Arm.signature).dedup.length ∧
      g.weights = (firstOccurs (arms.map Arm.signature)).map
        (sigSum (arms.zip (weights.getD (List.replicate arms.length 1)))) ∧
      g.arms = g.armWeightTable.map (fun e => e.2.arm) ∧
      g.weights = g.armWeightTable.map (fun e => e.2.weight) := by
  have harms : ∀ ws : List ℚ, (mkPlainRun arms ws now).arms.map Arm.signature
      = (buildArmWeightTable (arms.zip ws)).map (fun e => e.2.arm.signature) := by
    intro ws
    rw [GeneratorRun.arms, List.map_map]
    rfl
  rcases weights with - | ws
  · have hl : arms.length = (List.replicate arms.length (1 : ℚ)).length := by simp
    obtain ⟨h1, h2, h3⟩ := build_spec arms (List.replicate arms.length 1) hl
    exact ⟨mkPlainRun arms (List.replicate arms.length 1) now,
      grInit_plain_defaultw arms now, by rw [harms, h1], h2, h3, rfl, rfl⟩
  · have hl : arms.length = ws.length := (hlen ws rfl).symm
    obtain ⟨h1, h2, h3⟩ := build_spec arms ws hl
    exact ⟨mkPlainRun arms ws now,
      grInit_plain arms ws now hl, by rw [harms, h1], h2, h3, rfl, rfl⟩

/-- C1 witness: a concrete constructor call with a duplicated signature;
the three inputs with signatures a, b, a and weights 1, 2, 3 collapse to
two rows with weights 1+3 and 2. -/
theorem claim_C1_witness :
    ∃ g, grInit [Arm.mk "a", Arm.mk "b", Arm.mk "a"] (some [1, 2, 3]) none none none none
        none none none none none none none none none none 0 = .ok g ∧
      g.arms.map Arm.signature = firstOccurs ([Arm.mk "a", Arm.mk "b", Arm.mk "a"].map Arm.signature) ∧
      g.armWeightTable.length
        = ([Arm.mk "a", Arm.mk "b", Arm.mk "a"].map Arm.signature).dedup.length ∧
      g.weights = (firstOccurs ([Arm.mk "a", Arm.mk "b", Arm.mk "a"].map Arm.signature)).map
        (sigSum ([Arm.mk "a", Arm.mk "b", Arm.mk "a"].zip
          ((some [1, 2, 3]).getD (List.replicate [Arm.mk "a", Arm.mk "b", Arm.mk "a"].length 1)))) ∧
      g.arms = g.armWeightTable.map (fun e => e.2.arm) ∧
      g.weights = g.armWeightTable.map (fun e => e.2.weight) :=
  claim_C1 [Arm.mk "a", Arm.mk "b", Arm.mk "a"] (some [1, 2, 3]) 0
    (by intro ws h; cases h; rfl)

/-! ### Constructor failure characterization (C3) -/

lemma kwargsOneSided_true_iff (modelKwargs bridgeKwargs : Option Ref) :
    kwargsOneSided modelKwargs bridgeKwargs = true
      ↔ modelKwargs.isSome ≠ bridgeKwargs.isSome := by
  rcases modelKwargs with - | m <;> rcases bridgeKwargs with - | b <;>
    simp [kwargsOneSided]

lemma kwargsMissingKey_true_iff (modelKey : Option String)
    (modelKwargs bridgeKwargs : Option Ref) :
    kwargsMissingKey modelKey modelKwargs bridgeKwargs = true
      ↔ ((modelKwargs.isSome = true ∨ bridgeKwargs.isSome = true) ∧ modelKey = none) := by
  rcases modelKey with - | k <;> rcases modelKwargs with - | m <;>
    rcases bridgeKwargs with - | b <;> simp [kwargsMissingKey]

lemma negStepIndex_true_iff (gsi : Option Int) :
    negStepIndex gsi = true ↔ ∃ n, gsi = some n ∧ n < 0 := by
  rcases gsi with - | n <;> simp [negStepIndex]

lemma candMetadataBad_true_iff (arms : List Arm) (ws : List ℚ)
    (hl : arms.length = ws.length) (cm : Option Ref) :
    candMetadataBad
        ((buildArmWeightTable (arms.zip ws)).map (fun e => e.2.arm.signature)) cm = true
      ↔ ∃ c, cm = some c ∧ ∃ kv ∈ c.2, kv.1 ∉ arms.map Arm.signature := by
  have hsigs := (build_spec arms ws hl).1
  rcases cm with - | c
  · simp [candMetadataBad]
  · simp only [candMetadataBad, Bool.and_eq_true, List.any_eq_true]
    constructor
    · rintro ⟨hne, kv, hkv, hnot⟩
      refine ⟨c, rfl, kv, hkv, ?_⟩
      intro hmem
      rw [Bool.not_eq_true'] at hnot
      have hnot2 : kv.1 ∉ (buildArmWeightTable (arms.zip ws)).map
          (fun e => e.2.arm.signature) := by
        simpa using hnot
      rw [hsigs] at hnot2
      exact hnot2 ((mem_firstOccurs _ _).2 hmem)
    · rintro ⟨c', hc, kv, hkv, hnot⟩
      rcases Option.some.inj hc with rfl
      refine ⟨?_, kv, hkv, ?_⟩
      · rw [Bool.not_eq_true', List.isEmpty_eq_false_iff_exists_mem]
        exact ⟨kv, hkv⟩
      · rw [Bool.not_eq_true']
        have hnot2 : kv.1 ∉ (buildArmWeightTable (arms.zip ws)).map
            (fun e => e.2.arm.signature) := by
          rw [hsigs]
          intro hmem
          exact hnot ((mem_firstOccurs _ _).1 hmem)
        simpa using hnot2

lemma grInitCore_error_iff (arms : List Arm) (ws : List ℚ)
    (oc ss mp bap : Option Ref) (type : Option String) (ft gt : Option ℚ)
    (mk : Option String) (mkw bkw gm msag : Option Ref)
    (gsi : Option Int) (cm : Option Ref) (now : Nat) :
    (∃ e, grInitCore arms ws oc ss mp bap type ft gt mk mkw bkw gm msag gsi cm now
        = .error e)
      ↔ (arms.length ≠ ws.length
        ∨ kwargsMissingKey mk mkw bkw = true
        ∨ kwargsOneSided mkw bkw = true
        ∨ candMetadataBad
            ((buildArmWeightTable (arms.zip ws)).map (fun e => e.2.arm.signature)) cm
            = true
        ∨ negStepIndex gsi = true) := by
  unfold grInitCore
  by_cases h1 : arms.length ≠ ws.length
  · simp [h1]
  · rw [if_neg h1]
    by_cases h2 : kwargsMissingKey mk mkw bkw = true
    · simp [h1, h2]
    · rw [Bool.not_eq_true] at h2
      simp only [h2, Bool.false_eq_true, if_false]
      by_cases h3 : kwargsOneSided mkw bkw = true
      · simp [h1, h3]
      · rw [Bool.not_eq_true] at h3
        simp only [h3, Bool.false_eq_true, if_false]
        by_cases h4 : candMetadataBad
            ((buildArmWeightTable (arms.zip ws)).map (fun e => e.2.arm.signature)) cm
            = true
        · simp [h1, h4]
        · rw [Bool.not_eq_true] at h4
          simp only [h4, Bool.false_eq_true, if_false]
          by_cases h5 : negStepIndex gsi = true
          · simp [h1, h5]
          · rw [Bool.not_eq_true] at h5
            simp [h1, h2, h3, h4, h5]

/-- C3: the constructor fails (with `ValueError`, or `AssertionError` for
the source's negative-step-index `assert` — the spec's InvalidArgument
taxonomy), returning no partial object, exactly when: a provided weights
list has a length different from the arms list; exactly one of
model kwargs and bridge kwargs is provided; either kwargs mapping is
provided without a model key; some candidate-metadata key is not the
signature of any supplied arm; or the generation-step index is
negative. -/
theorem claim_C3 (arms : List Arm) (weights : Option (List ℚ))
    (oc ss mp bap : Option Ref) (type : Option String) (ft gt : Option ℚ)
    (mk : Option String) (mkw bkw gm msag : Option Ref)
    (gsi : Option Int) (cm : Option Ref) (now : Nat) :
    (∃ e, grInit arms weights oc ss mp bap type ft gt mk mkw bkw gm msag gsi cm now
        = .error e)
      ↔ ((∃ w, weights = some w ∧ w.length ≠ arms.length)
        ∨ mkw.isSome ≠ bkw.isSome
        ∨ ((mkw.isSome = true ∨ bkw.isSome = true) ∧ mk = none)
        ∨ (∃ c, cm = some c ∧ ∃ kv ∈ c.2, kv.1 ∉ arms.map Arm.signature)
        ∨ (∃ n, gsi = some n ∧ n < 0)) := by
  rcases weights with - | w
  · have hgr : grInit arms none oc ss mp bap type ft gt mk mkw bkw gm msag gsi cm now
        = grInitCore arms (List.replicate arms.length 1) oc ss mp bap type ft gt mk
          mkw bkw gm msag gsi cm now := rfl
    have hl : arms.length = (List.replicate arms.length (1 : ℚ)).length := by simp
    rw [hgr, grInitCore_error_iff, kwargsOneSided_true_iff, kwargsMissingKey_true_iff,
      negStepIndex_true_iff, candMetadataBad_true_iff arms _ hl]
    have hA1 : ¬ (arms.length ≠ (List.replicate arms.length (1 : ℚ)).length) := by simp
    have hA2 : ¬ (∃ w, (none : Option (List ℚ)) = some w ∧ w.length ≠ arms.length) := by
      simp
    constructor
    · rintro (h | h | h | h | h)
      · exact absurd h hA1
      · exact Or.inr (Or.inr (Or.inl h))
      · exact Or.inr (Or.inl h)
      · exact Or.inr (Or.inr (Or.inr (Or.inl h)))
      · exact Or.inr (Or.inr (Or.inr (Or.inr h)))
    · rintro (h | h | h | h | h)
      · exact absurd h hA2
      · exact Or.inr (Or.inr (Or.inl h))
      · exact Or.inr (Or.inl h)
      · exact Or.inr (Or.inr (Or.inr (Or.inl h)))
      · exact Or.inr (Or.inr (Or.inr (Or.inr h)))
  · have hgr : grInit arms (some w) oc ss mp bap type ft gt mk mkw bkw gm msag gsi cm now
        = grInitCore arms w oc ss mp bap type ft gt mk mkw bkw gm msag gsi cm now := rfl
    rw [hgr, grInitCore_error_iff, kwargsOneSided_true_iff, kwargsMissingKey_true_iff,
      negStepIndex_true_iff]
    by_cases hl : arms.length = w.length
    · rw [candMetadataBad_true_iff arms _ hl]
      constructor
      · rintro (h | h | h | h | h)
        · exact absurd hl h
        · exact Or.inr (Or.inr (Or.inl h))
        · exact Or.inr (Or.inl h)
        · exact Or.inr (Or.inr (Or.inr (Or.inl h)))
        · exact Or.inr (Or.inr (Or.inr (Or.inr h)))
      · rintro (⟨w', hw, hne⟩ | h | h | h | h)
        · rcases Option.some.inj hw with rfl
          exact absurd hl.symm hne
        · exact Or.inr (Or.inr (Or.inl h))
        · exact Or.inr (Or.inl h)
        · exact Or.inr (Or.inr (Or.inr (Or.inl h)))
        · exact Or.inr (Or.inr (Or.inr (Or.inr h)))
    · constructor
      · intro hdrop
        exact Or.inl ⟨w, rfl, fun hh => hl hh.symm⟩
      · intro hdrop
        exact Or.inl hl

/-- C4: the `index` setter is write-once.  When the index is unset,
assignment succeeds and stores the value; re-assigning the same value
succeeds as a no-op (the object is unchanged); assigning a different
value fails with `ValueError` (the spec's InvalidState) and, since the
setter returns no new object on failure, the stored index is
unchanged. -/
theorem claim_C4 (g : GeneratorRun) (i j : Int) :
    (g.index = none → g.setIndex i = .ok { g with index := some i }) ∧
    (g.index = some i → g.setIndex i = .ok g) ∧
    (g.index = some j → j ≠ i → g.setIndex i = .error .valueError) := by
  refine ⟨?_, ?_, ?_⟩
  · intro h
    rw [GeneratorRun.setIndex, h]
  · intro h
    rcases g with ⟨t, ty, tc, oc, ss, mp, bap, idx, ft, gt, mk, mkw, bkw, gm, ms, gsi, cm⟩
    simp only at h
    subst h
    simp [GeneratorRun.setIndex]
  · intro h hne
    rw [GeneratorRun.setIndex, h]
    simp [hne]

/-- C4 witness: the three setter behaviors at a concrete run (index unset,
then set to 3). -/
theorem claim_C4_witness :
    ((mkPlainRun [Arm.mk "a"] [1] 0).setIndex 3
        = .ok { mkPlainRun [Arm.mk "a"] [1] 0 with index := some 3 }) ∧
    (({ mkPlainRun [Arm.mk "a"] [1] 0 with index := some 3 } : GeneratorRun).setIndex 3
        = .ok { mkPlainRun [Arm.mk "a"] [1] 0 with index := some 3 }) ∧
    (({ mkPlainRun [Arm.mk "a"] [1] 0 with index := some 3 } : GeneratorRun).setIndex 4
        = .error .valueError) :=
  ⟨(claim_C4 (mkPlainRun [Arm.mk "a"] [1] 0) 3 0).1 rfl,
   (claim_C4 { mkPlainRun [Arm.mk "a"] [1] 0 with index := some 3 } 3 0).2.1 rfl,
   (claim_C4 { mkPlainRun [Arm.mk "a"] [1] 0 with index := some 3 } 4 3).2.2 rfl
     (by decide)⟩

/-- C5: the derived unique id is the string form of the trial-assigned
index when set, else the string form of the generation-step index when
set, and otherwise the query fails with `ValueError` (the spec's
InvalidState). -/
theorem claim_C5 (g : GeneratorRun) (i k : Int) :
    (g.index = some i → g.uniqueId = .ok (toString i)) ∧
    (g.index = none → g.generationStepIndex = some k →
      g.uniqueId = .ok (toString k)) ∧
    (g.index = none → g.generationStepIndex = none →
      g.uniqueId = .error .valueError) := by
  refine ⟨?_, ?_, ?_⟩
  · intro h
    rw [GeneratorRun.uniqueId, h]
  · intro h1 h2
    rw [GeneratorRun.uniqueId, h1, h2]
  · intro h1 h2
    rw [GeneratorRun.uniqueId, h1, h2]

/-- C5 witness: the three unique-id behaviors at concrete runs. -/
theorem claim_C5_witness :
    (({ mkPlainRun [Arm.mk "a"] [1] 0 with index := some 2 } : GeneratorRun).uniqueId
        = .ok (toString (2 : Int))) ∧
    (({ mkPlainRun [Arm.mk "a"] [1] 0 with
          generationStepIndex := some 5 } : GeneratorRun).uniqueId
        = .ok (toString (5 : Int))) ∧
    ((mkPlainRun [Arm.mk "a"] [1] 0).uniqueId = .error .valueError) :=
  ⟨(claim_C5 { mkPlainRun [Arm.mk "a"] [1] 0 with index := some 2 } 2 0).1 rfl,
   (claim_C5 { mkPlainRun [Arm.mk "a"] [1] 0 with generationStepIndex := some 5 } 0 5).2.1
     rfl rfl,
   (claim_C5 (mkPlainRun [Arm.mk "a"] [1] 0) 0 0).2.2 rfl rfl⟩

/-! ### Clone (C2) -/

lemma grInitCore_ok_char (arms : List Arm) (ws : List ℚ)
    (oc ss mp bap : Option Ref) (type : Option String) (ft gt : Option ℚ)
    (mk : Option String) (mkw bkw gm msag : Option Ref)
    (gsi : Option Int) (cm : Option Ref) (now : Nat)
    (h1 : arms.length = ws.length)
    (h2 : kwargsMissingKey mk mkw bkw = false)
    (h3 : kwargsOneSided mkw bkw = false)
    (h4 : candMetadataBad
      ((buildArmWeightTable (arms.zip ws)).map (fun e => e.2.arm.signature)) cm = false)
    (h5 : negStepIndex gsi = false) :
    grInitCore arms ws oc ss mp bap type ft gt mk mkw bkw gm msag gsi cm now
      = .ok { armWeightTable := buildArmWeightTable (arms.zip ws),
              generatorRunType := type, timeCreated := now,
              optimizationConfig := oc, searchSpace := ss,
              modelPredictions := mp, bestArmPredictions := bap,
              index := none, fitTime := ft, genTime := gt, modelKey := mk,
              modelKwargs := mkw, bridgeKwargs := bkw, genMetadata := gm,
              modelStateAfterGen := msag, generationStepIndex := gsi,
              candidateMetadata := cm } := by
  unfold grInitCore
  rw [if_neg (by simp [h1])]
  simp only [h2, h3, h4, h5, Bool.false_eq_true, if_false]

lemma grInitCore_ok_inv (arms : List Arm) (ws : List ℚ)
    (oc ss mp bap : Option Ref) (type : Option String) (ft gt : Option ℚ)
    (mk : Option String) (mkw bkw gm msag : Option Ref)
    (gsi : Option Int) (cm : Option Ref) (now : Nat) (g : GeneratorRun)
    (h : grInitCore arms ws oc ss mp bap type ft gt mk mkw bkw gm msag gsi cm now
      = .ok g) :
    arms.length = ws.length ∧
    kwargsMissingKey mk mkw bkw = false ∧
    kwargsOneSided mkw bkw = false ∧
    candMetadataBad
      ((buildArmWeightTable (arms.zip ws)).map (fun e => e.2.arm.signature)) cm
      = false ∧
    negStepIndex gsi = false ∧
    g = { armWeightTable := buildArmWeightTable (arms.zip ws),
          generatorRunType := type, timeCreated := now,
          optimizationConfig := oc, searchSpace := ss,
          modelPredictions := mp, bestArmPredictions := bap, index := none,
          fitTime := ft, genTime := gt, modelKey := mk, modelKwargs := mkw,
          bridgeKwargs := bkw, genMetadata := gm, modelStateAfterGen := msag,
          generationStepIndex := gsi, candidateMetadata := cm } := by
  simp only [grInitCore] at h
  by_cases h1 : arms.length ≠ ws.length
  · rw [if_pos h1] at h
    exact absurd h (by simp)
  · rw [if_neg h1] at h
    by_cases h2 : kwargsMissingKey mk mkw bkw = true
    · simp only [h2, if_true] at h
      exact absurd h (by simp)
    · rw [Bool.not_eq_true] at h2
      simp only [h2, Bool.false_eq_true, if_false] at h
      by_cases h3 : kwargsOneSided mkw bkw = true
      · simp only [h3, if_true] at h
        exact absurd h (by simp)
      · rw [Bool.not_eq_true] at h3
        simp only [h3, Bool.false_eq_true, if_false] at h
        by_cases h4 : candMetadataBad
            ((buildArmWeightTable (arms.zip ws)).map (fun e => e.2.arm.signature)) cm
            = true
        · simp only [h4, if_true] at h
          exact absurd h (by simp)
        · rw [Bool.not_eq_true] at h4
          simp only [h4, Bool.false_eq_true, if_false] at h
          by_cases h5 : negStepIndex gsi = true
          · simp only [h5, if_true] at h
            exact absurd h (by simp)
          · rw [Bool.not_eq_true] at h5
            simp only [h5, Bool.false_eq_true, if_false] at h
            exact ⟨not_not.1 h1, h2, h3, h4, h5, (Except.ok.inj h).symm⟩

lemma build_keys_nodup (ps : List (Arm × ℚ)) :
    ((buildArmWeightTable ps).map (fun e => e.1)).Nodup := by
  rw [buildArmWeightTable, foldl_addPair_keys]
  simp only [List.map_nil, List.nil_append]
  exact newSigs_nodup _ _

lemma grInitCore_ok_wellFormed (arms : List Arm) (ws : List ℚ)
    (oc ss mp bap : Option Ref) (type : Option String) (ft gt : Option ℚ)
    (mk : Option String) (mkw bkw gm msag : Option Ref)
    (gsi : Option Int) (cm : Option Ref) (now : Nat) (g : GeneratorRun)
    (h : grInitCore arms ws oc ss mp bap type ft gt mk mkw bkw gm msag gsi cm now
      = .ok g) : GRWellFormed g := by
  obtain ⟨h1, h2, h3, h4, h5, hg⟩ :=
    grInitCore_ok_inv arms ws oc ss mp bap type ft gt mk mkw bkw gm msag gsi cm now g h
  subst hg
  exact ⟨build_keys_nodup _, foldl_addPair_key_sig _ [] (by simp), h2, h3, h4, h5⟩

lemma foldl_addPair_disjoint (ps : List (Arm × ℚ)) : ∀ t : ArmWeightTable,
    (∀ s ∈ ps.map (fun p => p.1.signature), s ∉ t.map (fun e => e.1)) →
    (ps.map (fun p => p.1.signature)).Nodup →
    List.foldl addPair t ps
      = t ++ ps.map (fun p => (p.1.signature, (⟨p.1, p.2⟩ : ArmWeight))) := by
  induction ps with
  | nil => intro t _ _; simp
  | cons p ps ih =>
    intro t hdisj hnd
    rw [List.map_cons, List.nodup_cons] at hnd
    have hp : p.1.signature ∉ t.map (fun e => e.1) :=
      hdisj _ (by simp)
    have hget : tableGet t p.1.signature = none := (tableGet_none_iff t _).2 hp
    have haddp : addPair t p = t ++ [(p.1.signature, ⟨p.1, p.2⟩)] := by
      rw [addPair, hget]
    have hdisj2 : ∀ s ∈ ps.map (fun p => p.1.signature),
        s ∉ (t ++ [(p.1.signature, (⟨p.1, p.2⟩ : ArmWeight))]).map (fun e => e.1) := by
      intro s hs
      rw [List.map_append, List.mem_append]
      rintro (hmem | hmem)
      · exact hdisj s (by simp [hs]) hmem
      · simp only [List.map_cons, List.map_nil, List.mem_singleton] at hmem
        rw [hmem] at hs
        exact hnd.1 hs
    rw [List.foldl_cons, haddp, ih _ hdisj2 hnd.2]
    simp

lemma rebuild_table (g : GeneratorRun)
    (hnd : (g.armWeightTable.map (fun e => e.1)).Nodup)
    (hks : ∀ e ∈ g.armWeightTable, e.1 = e.2.arm.signature) :
    buildArmWeightTable ((g.arms.map Arm.clone).zip g.weights) = g.armWeightTable := by
  have hclone : g.arms.map Arm.clone = g.arms := by
    have h1 : g.arms.map Arm.clone = g.arms.map id :=
      List.map_congr_left (fun a _ => rfl)
    rw [h1, List.map_id]
  rw [hclone]
  have hzip : g.arms.zip g.weights
      = g.armWeightTable.map (fun e => (e.2.arm, e.2.weight)) := by
    rw [GeneratorRun.arms, GeneratorRun.weights, List.zip_map']
  rw [hzip]
  have hsigs : (g.armWeightTable.map (fun e => (e.2.arm, e.2.weight))).map
        (fun p => p.1.signature)
      = g.armWeightTable.map (fun e => e.1) := by
    rw [List.map_map]
    exact List.map_congr_left (fun e he => (hks e he).symm)
  rw [buildArmWeightTable, foldl_addPair_disjoint _ [] (by simp) (by rw [hsigs]; exact hnd)]
  rw [List.nil_append, List.map_map]
  have hid : ∀ e ∈ g.armWeightTable,
      ((fun p : Arm × ℚ => (p.1.signature, (⟨p.1, p.2⟩ : ArmWeight)))
        ∘ fun e => (e.2.arm, e.2.weight)) e = id e := by
    intro e he
    show ((e.2.arm.signature, (⟨e.2.arm, e.2.weight⟩ : ArmWeight)) : String × ArmWeight) = e
    rw [← hks e he]
  rw [List.map_congr_left hid, List.map_id]

lemma writeRef_of_ne (a : Nat) (v : PyObj) (o : Option Ref)
    (h : ∀ r, o = some r → ¬ r.1 = a) : writeRef a v o = o := by
  rcases o with - | r
  · rfl
  · rcases r with ⟨a', w⟩
    simp only [writeRef]
    rw [if_neg (h (a', w) rfl)]

lemma heapWrite_of_not_mem (g : GeneratorRun) (a : Nat) (v : PyObj)
    (h : a ∉ g.refAddrs) : g.heapWrite a v = g := by
  have key : ∀ (o : Option Ref), (∀ r, o = some r → r.1 ∈ g.refAddrs) →
      writeRef a v o = o := fun o ho =>
    writeRef_of_ne a v o (fun r hr heq => h (heq ▸ ho r hr))
  unfold GeneratorRun.heapWrite
  rw [key g.optimizationConfig (by intro r hr; simp [GeneratorRun.refAddrs, hr]),
    key g.searchSpace (by intro r hr; simp [GeneratorRun.refAddrs, hr]),
    key g.modelPredictions (by intro r hr; simp [GeneratorRun.refAddrs, hr]),
    key g.bestArmPredictions (by intro r hr; simp [GeneratorRun.refAddrs, hr]),
    key g.modelKwargs (by intro r hr; simp [GeneratorRun.refAddrs, hr]),
    key g.bridgeKwargs (by intro r hr; simp [GeneratorRun.refAddrs, hr]),
    key g.genMetadata (by intro r hr; simp [GeneratorRun.refAddrs, hr]),
    key g.modelStateAfterGen (by intro r hr; simp [GeneratorRun.refAddrs, hr]),
    key g.candidateMetadata (by intro r hr; simp [GeneratorRun.refAddrs, hr])]

lemma grClone_spec (g : GeneratorRun) (now fresh : Nat) (hwf : GRWellFormed g) :
    grClone g now fresh
      = .ok { armWeightTable := g.armWeightTable
              generatorRunType := g.generatorRunType
              timeCreated := g.timeCreated
              optimizationConfig := g.optimizationConfig.map (fun r => (fresh, r.2))
              searchSpace := g.searchSpace.map (fun r => (fresh + 1, r.2))
              modelPredictions := g.modelPredictions.map (fun r => (fresh + 2, r.2))
              bestArmPredictions := g.bestArmPredictions.map (fun r => (fresh + 3, r.2))
              index := g.index
              fitTime := g.fitTime
              genTime := g.genTime
              modelKey := g.modelKey
              modelKwargs := g.modelKwargs.map (fun r => (fresh + 4, r.2))
              bridgeKwargs := g.bridgeKwargs.map (fun r => (fresh + 5, r.2))
              genMetadata := g.genMetadata
              modelStateAfterGen := g.modelStateAfterGen.map (fun r => (fresh + 6, r.2))
              generationStepIndex := g.generationStepIndex
              candidateMetadata := g.candidateMetadata } := by
  obtain ⟨hnd, hks, h2, h3, h4, h5⟩ := hwf
  have hrebuild := rebuild_table g hnd hks
  have hlen : (g.arms.map Arm.clone).length = g.weights.length := by
    simp [GeneratorRun.arms, GeneratorRun.weights]
  have hcand : candMetadataBad
      ((buildArmWeightTable ((g.arms.map Arm.clone).zip g.weights)).map
        (fun e => e.2.arm.signature)) g.candidateMetadata = false := by
    rw [hrebuild]
    exact h4
  have hinit : grInitCore (g.arms.map Arm.clone) g.weights
      (g.optimizationConfig.map (fun r => (fresh, r.2)))
      (g.searchSpace.map (fun r => (fresh + 1, r.2)))
      (g.modelPredictions.map (fun r => (fresh + 2, r.2)))
      (g.bestArmPredictions.map (fun r => (fresh + 3, r.2)))
      g.generatorRunType g.fitTime g.genTime g.modelKey
      g.modelKwargs g.bridgeKwargs g.genMetadata g.modelStateAfterGen
      g.generationStepIndex g.candidateMetadata now
      = .ok { armWeightTable := buildArmWeightTable ((g.arms.map Arm.clone).zip g.weights),
              generatorRunType := g.generatorRunType, timeCreated := now,
              optimizationConfig := g.optimizationConfig.map (fun r => (fresh, r.2)),
              searchSpace := g.searchSpace.map (fun r => (fresh + 1, r.2)),
              modelPredictions := g.modelPredictions.map (fun r => (fresh + 2, r.2)),
              bestArmPredictions := g.bestArmPredictions.map (fun r => (fresh + 3, r.2)),
              index := none, fitTime := g.fitTime, genTime := g.genTime,
              modelKey := g.modelKey, modelKwargs := g.modelKwargs,
              bridgeKwargs := g.bridgeKwargs, genMetadata := g.genMetadata,
              modelStateAfterGen := g.modelStateAfterGen,
              generationStepIndex := g.generationStepIndex,
              candidateMetadata := g.candidateMetadata } :=
    grInitCore_ok_char _ _ _ _ _ _ _ _ _ _ _ _ _ _ _ _ _ hlen h2 h3 hcand h5
  have hbind : grClone g now fresh
      = (grInitCore (g.arms.map Arm.clone) g.weights
          (g.optimizationConfig.map (fun r => (fresh, r.2)))
          (g.searchSpace.map (fun r => (fresh + 1, r.2)))
          (g.modelPredictions.map (fun r => (fresh + 2, r.2)))
          (g.bestArmPredictions.map (fun r => (fresh + 3, r.2)))
          g.generatorRunType g.fitTime g.genTime g.modelKey
          g.modelKwargs g.bridgeKwargs g.genMetadata g.modelStateAfterGen
          g.generationStepIndex g.candidateMetadata now).bind
        (fun g' => .ok { g' with
          timeCreated := g.timeCreated
          index := g.index
          modelKey := g.modelKey
          modelKwargs := g.modelKwargs.map (fun r => (fresh + 4, r.2))
          bridgeKwargs := g.bridgeKwargs.map (fun r => (fresh + 5, r.2))
          modelStateAfterGen := g.modelStateAfterGen.map (fun r => (fresh + 6, r.2)) }) :=
    rfl
  rw [hbind, hinit]
  show Except.ok _ = Except.ok _
  rw [hrebuild]

/-- C2 counterexample: the claim asserts that mutating any mutable nested
structure of the clone does not affect the original.  But `clone()`
passes `gen_metadata` to the nested constructor unchanged, so the clone's
gen-metadata container is the very container of the original (here at
address 0); writing through it changes the original's observable
gen-metadata contents. -/
theorem claim_C2_counterexample :
    ∃ g0 g1,
      grInit [Arm.mk "a"] none none none none none none none none none none none
        (some (0, [("k", 1)])) none none none 0 = .ok g0 ∧
      grClone g0 0 10 = .ok g1 ∧
      g1.genMetadata = some (0, [("k", 1)]) ∧
      g1.genMetadata = g0.genMetadata ∧
      (g0.heapWrite 0 [("k", 2)]).genMetadata ≠ g0.genMetadata := by
  refine ⟨_, _, rfl, rfl, rfl, rfl, by decide⟩

/-- C2 (amended): `clone()` yields a run equal to the original in every
observable field value — identical arm table, run type, creation
timestamp, trial index, generation-step index, model identity, timing
fields, and equal contents of every container field — with the
optimization-config, search-space, prediction, model-kwargs,
bridge-kwargs and model-state containers freshly allocated (addresses at
or above `fresh`, where the original has none, so mutating them leaves
the original unchanged), while the gen-metadata and candidate-metadata
containers are shared with the original. -/
theorem claim_C2 (g : GeneratorRun) (now fresh : Nat) (hwf : GRWellFormed g)
    (hfresh : ∀ a ∈ g.refAddrs, a < fresh) :
    ∃ g', grClone g now fresh = .ok g' ∧
      g'.armWeightTable = g.armWeightTable ∧
      g'.generatorRunType = g.generatorRunType ∧
      g'.timeCreated = g.timeCreated ∧
      g'.index = g.index ∧
      g'.fitTime = g.fitTime ∧
      g'.genTime = g.genTime ∧
      g'.modelKey = g.modelKey ∧
      g'.generationStepIndex = g.generationStepIndex ∧
      g'.optimizationConfig.map Prod.snd = g.optimizationConfig.map Prod.snd ∧
      g'.searchSpace.map Prod.snd = g.searchSpace.map Prod.snd ∧
      g'.modelPredictions.map Prod.snd = g.modelPredictions.map Prod.snd ∧
      g'.bestArmPredictions.map Prod.snd = g.bestArmPredictions.map Prod.snd ∧
      g'.modelKwargs.map Prod.snd = g.modelKwargs.map Prod.snd ∧
      g'.bridgeKwargs.map Prod.snd = g.bridgeKwargs.map Prod.snd ∧
      g'.modelStateAfterGen.map Prod.snd = g.modelStateAfterGen.map Prod.snd ∧
      (∀ r, g'.optimizationConfig = some r → fresh ≤ r.1) ∧
      (∀ r, g'.searchSpace = some r → fresh ≤ r.1) ∧
      (∀ r, g'.modelPredictions = some r → fresh ≤ r.1) ∧
      (∀ r, g'.bestArmPredictions = some r → fresh ≤ r.1) ∧
      (∀ r, g'.modelKwargs = some r → fresh ≤ r.1) ∧
      (∀ r, g'.bridgeKwargs = some r → fresh ≤ r.1) ∧
      (∀ r, g'.modelStateAfterGen = some r → fresh ≤ r.1) ∧
      (∀ (a : Nat) (v : PyObj), fresh ≤ a → g.heapWrite a v = g) ∧
      g'.genMetadata = g.genMetadata ∧
      g'.candidateMetadata = g.candidateMetadata := by
  have hsnd : ∀ (o : Option Ref) (n : Nat),
      (o.map (fun r => (n, r.2))).map Prod.snd = o.map Prod.snd := by
    intro o n
    rcases o with - | r <;> rfl
  have hfst : ∀ (o : Option Ref) (n : Nat) (r : Ref),
      o.map (fun q => (n, q.2)) = some r → n ≤ r.1 := by
    intro o n r h
    rcases o with - | q
    · cases h
    · cases Option.some.inj h
      exact le_refl n
  refine ⟨_, grClone_spec g now fresh hwf, rfl, rfl, rfl, rfl, rfl, rfl, rfl, rfl,
    hsnd _ _, hsnd _ _, hsnd _ _, hsnd _ _, hsnd _ _, hsnd _ _, hsnd _ _,
    fun r h => hfst _ _ _ h,
    fun r h => le_trans (Nat.le_add_right fresh 1) (hfst _ _ _ h),
    fun r h => le_trans (Nat.le_add_right fresh 2) (hfst _ _ _ h),
    fun r h => le_trans (Nat.le_add_right fresh 3) (hfst _ _ _ h),
    fun r h => le_trans (Nat.le_add_right fresh 4) (hfst _ _ _ h),
    fun r h => le_trans (Nat.le_add_right fresh 5) (hfst _ _ _ h),
    fun r h => le_trans (Nat.le_add_right fresh 6) (hfst _ _ _ h),
    ?_, rfl, rfl⟩
  intro a v ha
  refine heapWrite_of_not_mem g a v ?_
  intro hmem
  exact absurd ha (not_le.2 (hfresh a hmem))

/-- C2 witness: the amended clone contract at the concrete `sampleRun`. -/
theorem claim_C2_witness :
    ∃ g', grClone sampleRun 0 10 = .ok g' ∧
      g'.armWeightTable = sampleRun.armWeightTable ∧
      g'.timeCreated = sampleRun.timeCreated ∧
      g'.genMetadata = sampleRun.genMetadata := by
  obtain ⟨g', hcl, htab, -, htime, -, -, -, -, -, -, -, -, -, -, -, -, -, -, -,
      -, -, -, -, -, hgm, -⟩ :=
    claim_C2 sampleRun 0 10 (by unfold GRWellFormed; decide) (by decide)
  exact ⟨g', hcl, htab, htime, hgm⟩

/-- C10: for every successfully constructed GeneratorRun, `arms` and
`weights` have equal length, the arms have pairwise-distinct signatures,
assigning `index` (on any run) and `clone()` leave the arm-weight table
unchanged, and `arm_weights` is exactly the table's arm/weight pairs (the
pure accessors always read the same fixed table). -/
theorem claim_C10 (arms : List Arm) (weights : Option (List ℚ))
    (oc ss mp bap : Option Ref) (type : Option String) (ft gt : Option ℚ)
    (mk : Option String) (mkw bkw gm msag : Option Ref)
    (gsi : Option Int) (cm : Option Ref) (now : Nat) (g : GeneratorRun)
    (hok : grInit arms weights oc ss mp bap type ft gt mk mkw bkw gm msag gsi cm now
      = .ok g) :
    g.arms.length = g.weights.length ∧
    (g.arms.map Arm.signature).Nodup ∧
    (∀ (h : GeneratorRun) (i : Int) (h2 : GeneratorRun),
      h.setIndex i = .ok h2 → h2.armWeightTable = h.armWeightTable) ∧
    (∀ (now2 fresh : Nat) (g' : GeneratorRun),
      grClone g now2 fresh = .ok g' → g'.armWeightTable = g.armWeightTable) ∧
    g.armWeights = g.armWeightTable.map (fun e => (e.2.arm, e.2.weight)) := by
  have hwf : GRWellFormed g := by
    rcases weights with - | w
    · exact grInitCore_ok_wellFormed arms (List.replicate arms.length 1) oc ss mp bap
        type ft gt mk mkw bkw gm msag gsi cm now g hok
    · exact grInitCore_ok_wellFormed arms w oc ss mp bap
        type ft gt mk mkw bkw gm msag gsi cm now g hok
  refine ⟨?_, ?_, ?_, ?_, ?_⟩
  · simp [GeneratorRun.arms, GeneratorRun.weights]
  · have hmap : g.arms.map Arm.signature = g.armWeightTable.map (fun e => e.1) := by
      rw [GeneratorRun.arms, List.map_map]
      exact List.map_congr_left (fun e he => (hwf.2.1 e he).symm)
    rw [hmap]
    exact hwf.1
  · intro h i h2 hset
    rcases hh : h.index with - | cur
    · rw [GeneratorRun.setIndex, hh] at hset
      have h3 : Except.ok { h with index := some i } = Except.ok h2 := hset
      cases Except.ok.inj h3
      rfl
    · rw [GeneratorRun.setIndex, hh] at hset
      have h3 : (if cur ≠ i then (Except.error PyErr.valueError : Except PyErr GeneratorRun)
          else Except.ok { h with index := some i }) = Except.ok h2 := hset
      by_cases hci : cur ≠ i
      · rw [if_pos hci] at h3
        exact absurd h3 (by simp)
      · rw [if_neg hci] at h3
        cases Except.ok.inj h3
        rfl
  · intro now2 fresh g' hcl
    rw [grClone_spec g now2 fresh hwf] at hcl
    cases Except.ok.inj hcl
    rfl
  · rw [GeneratorRun.armWeights, GeneratorRun.arms, GeneratorRun.weights,
      List.zip_map']

/-- C10 witness: the invariants at the concrete single-arm run. -/
theorem claim_C10_witness :
    (mkPlainRun [Arm.mk "a"] [1] 0).arms.length
        = (mkPlainRun [Arm.mk "a"] [1] 0).weights.length ∧
    ((mkPlainRun [Arm.mk "a"] [1] 0).arms.map Arm.signature).Nodup ∧
    (∀ (h : GeneratorRun) (i : Int) (h2 : GeneratorRun),
      h.setIndex i = .ok h2 → h2.armWeightTable = h.armWeightTable) ∧
    (∀ (now2 fresh : Nat) (g' : GeneratorRun),
      grClone (mkPlainRun [Arm.mk "a"] [1] 0) now2 fresh = .ok g' →
        g'.armWeightTable = (mkPlainRun [Arm.mk "a"] [1] 0).armWeightTable) ∧
    (mkPlainRun [Arm.mk "a"] [1] 0).armWeights
        = (mkPlainRun [Arm.mk "a"] [1] 0).armWeightTable.map
            (fun e => (e.2.arm, e.2.weight)) :=
  claim_C10 [Arm.mk "a"] (some [1]) none none none none none none none none none
    none none none none none 0 (mkPlainRun [Arm.mk "a"] [1] 0) rfl

/-! ### Chunk-level lemmas for the suffix resolver -/

lemma pySplit_ne_nil (d : Char) (s : PyStr) : pySplit d s ≠ [] := by
  induction s with
  | nil => simp [pySplit]
  | cons c cs ih =>
    rw [pySplit]
    rcases h : pySplit d cs with - | ⟨g, gs⟩
    · exact absurd h ih
    · by_cases hc : c = d <;> simp [hc]

lemma pySplit_cons_eq (d c : Char) (cs : PyStr) (g : PyStr) (gs : List PyStr)
    (h : pySplit d cs = g :: gs) :
    pySplit d (c :: cs) = if c = d then [] :: g :: gs else (c :: g) :: gs := by
  rw [pySplit, h]

lemma not_mem_pySplit (d : Char) (s : PyStr) : ∀ g ∈ pySplit d s, d ∉ g := by
  induction s with
  | nil =>
    intro g hg
    simp only [pySplit, List.mem_singleton] at hg
    subst hg
    simp
  | cons c cs ih =>
    intro g hg
    rcases h : pySplit d cs with - | ⟨g0, gs⟩
    · exact absurd h (pySplit_ne_nil d cs)
    · rw [pySplit_cons_eq d c cs g0 gs h] at hg
      by_cases hc : c = d
      · rw [if_pos hc] at hg
        rcases List.mem_cons.1 hg with rfl | hg2
        · simp
        · exact ih g (h ▸ hg2)
      · rw [if_neg hc] at hg
        rcases List.mem_cons.1 hg with rfl | hg2
        · intro hd
          rcases List.mem_cons.1 hd with hdc | hd2
          · exact hc hdc.symm
          · exact ih g0 (h ▸ List.mem_cons_self g0 gs) hd2
        · exact ih g (h ▸ List.mem_cons_of_mem g0 hg2)

lemma pyJoin_pySplit (d : Char) (s : PyStr) : pyJoin d (pySplit d s) = s := by
  induction s with
  | nil => rfl
  | cons c cs ih =>
    rcases h : pySplit d cs with - | ⟨g, gs⟩
    · exact absurd h (pySplit_ne_nil d cs)
    · rw [h] at ih
      rw [pySplit_cons_eq d c cs g gs h]
      by_cases hc : c = d
      · rw [if_pos hc]
        rw [pyJoin]
        rw [ih, hc]
        rfl
      · rw [if_neg hc]
        rcases gs with - | ⟨g2, gs⟩
        · rw [pyJoin] at ih ⊢
          rw [ih]
        · rw [pyJoin] at ih ⊢
          rw [List.cons_append, ih]

lemma pySplit_no_delim (d : Char) (s : PyStr) (h : d ∉ s) : pySplit d s = [s] := by
  induction s with
  | nil => rfl
  | cons c cs ih =>
    have hc : ¬ c = d := by
      intro hh
      exact h (by rw [hh]; exact List.mem_cons_self d cs)
    have hcs : d ∉ cs := fun hh => h (List.mem_cons_of_mem c hh)
    rw [pySplit, ih hcs]
    simp [hc]

lemma pySplit_append_delim (d : Char) (g : PyStr) : ∀ t : PyStr, d ∉ g →
    pySplit d (g ++ d :: t) = g :: pySplit d t := by
  induction g with
  | nil =>
    intro t _
    rw [List.nil_append, pySplit]
    rcases h : pySplit d t with - | ⟨g0, gs⟩
    · exact absurd h (pySplit_ne_nil d t)
    · simp
  | cons c g ih =>
    intro t hg
    have hc : ¬ c = d := by
      intro hh
      exact hg (by rw [hh]; exact List.mem_cons_self d g)
    have hg2 : d ∉ g := fun hh => hg (List.mem_cons_of_mem c hh)
    rw [List.cons_append, pySplit, ih t hg2]
    simp [hc]

lemma pySplit_pyJoin (d : Char) (gs : List PyStr) (hne : gs ≠ [])
    (hall : ∀ g ∈ gs, d ∉ g) : pySplit d (pyJoin d gs) = gs := by
  induction gs with
  | nil => exact absurd rfl hne
  | cons g rest ih =>
    rcases rest with - | ⟨g2, rest⟩
    · rw [pyJoin]
      exact pySplit_no_delim d g (hall g (by simp))
    · rw [pyJoin, pySplit_append_delim d g _ (hall g (by simp)),
        ih (by simp) (fun x hx => hall x (List.mem_cons_of_mem g hx))]

lemma pySplit_inj (d : Char) (s t : PyStr) (h : pySplit d s = pySplit d t) :
    s = t := by
  have h2 := congrArg (pyJoin d) h
  rwa [pyJoin_pySplit, pyJoin_pySplit] at h2

lemma takeLast_of_le (n : Nat) (l : List α) (h : l.length ≤ n) :
    takeLast n l = l := by
  unfold takeLast
  rw [Nat.sub_eq_zero_of_le h, List.drop_zero]

lemma takeLast_takeLast (j k : Nat) (l : List α) :
    takeLast j (takeLast k l) = takeLast (min j k) l := by
  unfold takeLast
  rw [List.drop_drop, List.length_drop]
  congr 1
  omega

lemma takeLast_suffix (n : Nat) (l : List α) : takeLast n l <:+ l :=
  List.drop_suffix _ _

lemma takeLast_ne_nil (n : Nat) (l : List α) (h1 : 1 ≤ n) (h2 : l ≠ []) :
    takeLast n l ≠ [] := by
  unfold takeLast
  intro h
  have h3 := congrArg List.length h
  rw [List.length_drop, List.length_nil] at h3
  have h4 : 0 < l.length := List.length_pos.2 h2
  omega

lemma takeLast_length (n : Nat) (l : List α) :
    (takeLast n l).length = min n l.length := by
  unfold takeLast
  rw [List.length_drop]
  omega

lemma takeLast_eq_of_suffix (u l : List α) (h : u <:+ l) :
    takeLast u.length l = u := by
  rcases h with ⟨p, rfl⟩
  unfold takeLast
  rw [List.length_append]
  have h2 : p.length + u.length - u.length = p.length := by omega
  rw [h2, List.drop_left]

lemma takeLast_min_length (n : Nat) (l : List α) :
    takeLast (min n l.length) l = takeLast n l := by
  unfold takeLast
  congr 1
  omega

lemma pySplit_get_suffix (d : Char) (s : PyStr) (k : Nat) (hk : 1 ≤ k) :
    pySplit d (_get_suffix s d k) = takeLast k (pySplit d s) := by
  unfold _get_suffix
  refine pySplit_pyJoin d _ (takeLast_ne_nil k _ hk (pySplit_ne_nil d s)) ?_
  intro g hg
  exact not_mem_pySplit d s g ((takeLast_suffix k _).subset hg)

lemma get_suffix_get_suffix (d : Char) (s : PyStr) (j k : Nat) (hj : 1 ≤ j)
    (hk : 1 ≤ k) :
    _get_suffix (_get_suffix s d k) d j = _get_suffix s d (min j k) := by
  show pyJoin d (takeLast j (pySplit d (_get_suffix s d k))) = _get_suffix s d (min j k)
  rw [pySplit_get_suffix d s k hk, takeLast_takeLast]
  rfl

lemma get_suffix_congr_le (d : Char) (s t : PyStr) (j k : Nat) (hj : 1 ≤ j)
    (hjk : j ≤ k) (h : _get_suffix s d k = _get_suffix t d k) :
    _get_suffix s d j = _get_suffix t d j := by
  have hk : 1 ≤ k := le_trans hj hjk
  have h1 := congrArg (fun u => _get_suffix u d j) h
  simp only at h1
  rw [get_suffix_get_suffix d s j k hj hk, get_suffix_get_suffix d t j k hj hk,
    min_eq_left hjk] at h1
  exact h1

lemma get_suffix_of_le_length (d : Char) (s : PyStr) (k : Nat)
    (h : (pySplit d s).length ≤ k) : _get_suffix s d k = s := by
  unfold _get_suffix
  rw [takeLast_of_le k _ h, pyJoin_pySplit]

/-! ### Dictionary-operation lemmas for the suffix resolver -/

lemma foldl_max_init (l : List Nat) : ∀ a, a ≤ l.foldl max a := by
  induction l with
  | nil => intro a; simp
  | cons x l ih => intro a; exact le_trans (le_max_left a x) (ih (max a x))

lemma foldl_max_mem (l : List Nat) : ∀ a, ∀ x ∈ l, x ≤ l.foldl max a := by
  induction l with
  | nil => intro a x hx; cases hx
  | cons y l ih =>
    intro a x hx
    rcases List.mem_cons.1 hx with rfl | hx2
    · exact le_trans (le_max_right a x) (foldl_max_init l (max a x))
    · exact ih (max a y) x hx2

lemma le_maxNat (l : List Nat) (x : Nat) (h : x ∈ l) : x ≤ maxNat l :=
  foldl_max_mem l 0 x h

lemma dictVals_nil : dictVals [] = [] := rfl

lemma dictVals_cons (e : PyStr × List PyStr) (dct : SuffixDict) :
    dictVals (e :: dct) = e.2 ++ dictVals dct := by
  simp [dictVals]

lemma dictVals_append (a b : SuffixDict) :
    dictVals (a ++ b) = dictVals a ++ dictVals b := by
  simp [dictVals]

lemma dictAppend_keys (dct : SuffixDict) (k v : PyStr) :
    (dictAppend dct k v).map (fun e => e.1)
      = if k ∈ dct.map (fun e => e.1) then dct.map (fun e => e.1)
        else dct.map (fun e => e.1) ++ [k] := by
  induction dct with
  | nil => simp [dictAppend]
  | cons e rest ih =>
    rw [dictAppend]
    by_cases he : e.1 = k
    · rw [if_pos he]
      simp [he]
    · rw [if_neg he]
      rw [List.map_cons, List.map_cons, ih]
      by_cases hk : k ∈ rest.map (fun e => e.1)
      · rw [if_pos hk, if_pos (by simp [hk])]
      · rw [if_neg hk, if_neg ?_]
        · simp
        · simp only [List.mem_cons, not_or]
          exact ⟨fun hh => he hh.symm, hk⟩

lemma dictAppend_keys_nodup (dct : SuffixDict) (k v : PyStr)
    (h : (dct.map (fun e => e.1)).Nodup) :
    ((dictAppend dct k v).map (fun e => e.1)).Nodup := by
  rw [dictAppend_keys]
  by_cases hk : k ∈ dct.map (fun e => e.1)
  · rwa [if_pos hk]
  · rw [if_neg hk]
    rw [List.nodup_append]
    exact ⟨h, List.nodup_singleton k,
      fun a ha hak => hk ((List.mem_singleton.1 hak) ▸ ha)⟩

lemma dictVals_dictAppend (dct : SuffixDict) (k v : PyStr) :
    (dictVals (dictAppend dct k v)).Perm (dictVals dct ++ [v]) := by
  induction dct with
  | nil => simp [dictAppend, dictVals]
  | cons e rest ih =>
    rw [dictAppend]
    by_cases he : e.1 = k
    · rw [if_pos he, dictVals_cons, dictVals_cons]
      have h1 : (e.2 ++ [v]) ++ dictVals rest = e.2 ++ ([v] ++ dictVals rest) := by
        simp
      rw [h1]
      have h2 : ([v] ++ dictVals rest).Perm (dictVals rest ++ [v]) :=
        List.perm_append_comm
      calc (e.2 ++ ([v] ++ dictVals rest)).Perm (e.2 ++ (dictVals rest ++ [v])) :=
            List.Perm.append_left e.2 h2
        _ = (e.2 ++ dictVals rest) ++ [v] := by simp
    · rw [if_neg he, dictVals_cons, dictVals_cons]
      calc (e.2 ++ dictVals (dictAppend rest k v)).Perm
            (e.2 ++ (dictVals rest ++ [v])) := List.Perm.append_left e.2 ih
        _ = (e.2 ++ dictVals rest) ++ [v] := by simp

lemma dictAppend_mem_entry (dct : SuffixDict) (k v : PyStr) :
    ∀ e' ∈ dictAppend dct k v, ∀ x ∈ e'.2,
      (∃ e ∈ dct, e.1 = e'.1 ∧ x ∈ e.2) ∨ (x = v ∧ e'.1 = k) := by
  induction dct with
  | nil =>
    intro e' he' x hx
    simp only [dictAppend, List.mem_singleton] at he'
    subst he'
    simp only [List.mem_singleton] at hx
    exact Or.inr ⟨hx, rfl⟩
  | cons e rest ih =>
    intro e' he' x hx
    rw [dictAppend] at he'
    by_cases he : e.1 = k
    · rw [if_pos he] at he'
      rcases List.mem_cons.1 he' with rfl | he2
      · simp only [List.mem_append, List.mem_singleton] at hx
        rcases hx with hx | hx
        · exact Or.inl ⟨e, List.mem_cons_self e rest, rfl, hx⟩
        · exact Or.inr ⟨hx, he⟩
      · exact Or.inl ⟨e', List.mem_cons_of_mem e he2, rfl, hx⟩
    · rw [if_neg he] at he'
      rcases List.mem_cons.1 he' with rfl | he2
      · exact Or.inl ⟨e', List.mem_cons_self e' rest, rfl, hx⟩
      · rcases ih e' he2 x hx with ⟨f, hf, hf1, hf2⟩ | hr
        · exact Or.inl ⟨f, List.mem_cons_of_mem e hf, hf1, hf2⟩
        · exact Or.inr hr

lemma dictAppend_entry_ne_nil (dct : SuffixDict) (k v : PyStr)
    (h : ∀ e ∈ dct, e.2 ≠ []) : ∀ e' ∈ dictAppend dct k v, e'.2 ≠ [] := by
  induction dct with
  | nil =>
    intro e' he'
    simp only [dictAppend, List.mem_singleton] at he'
    subst he'
    simp
  | cons e rest ih =>
    intro e' he'
    rw [dictAppend] at he'
    by_cases he : e.1 = k
    · rw [if_pos he] at he'
      rcases List.mem_cons.1 he' with rfl | he2
      · simp
      · exact h e' (List.mem_cons_of_mem e he2)
    · rw [if_neg he] at he'
      rcases List.mem_cons.1 he' with rfl | he2
      · exact h e' (List.mem_cons_self e' rest)
      · exact ih (fun f hf => h f (List.mem_cons_of_mem e hf)) e' he2

lemma dictSet_not_mem (dct : SuffixDict) (k : PyStr) (vs : List PyStr)
    (h : k ∉ dct.map (fun e => e.1)) : dictSet dct k vs = dct ++ [(k, vs)] := by
  induction dct with
  | nil => rfl
  | cons e rest ih =>
    rw [dictSet]
    rw [List.map_cons, List.mem_cons, not_or] at h
    rw [if_neg (fun hh => h.1 hh.symm), ih h.2, List.cons_append]

lemma mem_dictVals (dct : SuffixDict) (x : PyStr) :
    x ∈ dictVals dct ↔ ∃ e ∈ dct, x ∈ e.2 := by
  induction dct with
  | nil => simp [dictVals]
  | cons e rest ih =>
    rw [dictVals_cons, List.mem_append, ih]
    constructor
    · rintro (hx | ⟨f, hf, hfx⟩)
      · exact ⟨e, List.mem_cons_self e rest, hx⟩
      · exact ⟨f, List.mem_cons_of_mem e hf, hfx⟩
    · rintro ⟨f, hf, hfx⟩
      rcases List.mem_cons.1 hf with rfl | hf2
      · exact Or.inl hfx
      · exact Or.inr ⟨f, hf2, hfx⟩

lemma entry_vals_sublist (dct : SuffixDict) (e : PyStr × List PyStr) (h : e ∈ dct) :
    e.2.Sublist (dictVals dct) := by
  induction dct with
  | nil => cases h
  | cons f rest ih =>
    rw [dictVals_cons]
    rcases List.mem_cons.1 h with rfl | h2
    · exact List.sublist_append_left e.2 (dictVals rest)
    · exact (ih h2).trans (List.sublist_append_right f.2 (dictVals rest))

lemma entry_eq_of_key (dct : SuffixDict) (hnd : (dct.map (fun e => e.1)).Nodup)
    (e f : PyStr × List PyStr) (he : e ∈ dct) (hf : f ∈ dct) (h : e.1 = f.1) :
    e = f := by
  induction dct with
  | nil => cases he
  | cons a rest ih =>
    rw [List.map_cons, List.nodup_cons] at hnd
    rcases List.mem_cons.1 he with rfl | he2
    · rcases List.mem_cons.1 hf with rfl | hf2
      · rfl
      · exact absurd (h ▸ List.mem_map_of_mem (fun e => e.1) hf2) hnd.1
    · rcases List.mem_cons.1 hf with rfl | hf2
      · exact absurd (h ▸ List.mem_map_of_mem (fun e => e.1) he2) hnd.1
      · exact ih hnd.2 he2 hf2

lemma lookup_of_mem_nodup (m : List (PyStr × PyStr)) (s v : PyStr)
    (hnd : (m.map (fun e => e.1)).Nodup) (h : (s, v) ∈ m) :
    m.lookup s = some v := by
  induction m with
  | nil => cases h
  | cons e rest ih =>
    rw [List.map_cons, List.nodup_cons] at hnd
    rcases List.mem_cons.1 h with heq | h2
    · rw [← heq]
      simp [List.lookup]
    · rcases e with ⟨k, w⟩
      have hk : ¬ s = k := by
        intro hh
        exact hnd.1 (hh ▸ List.mem_map_of_mem (fun e => e.1) h2)
      simp only [List.lookup]
      have hbeq : (s == k) = false := by simp [hk]
      rw [hbeq]
      exact ih hnd.2 h2

lemma exists_other_mem (l : List PyStr) (hnd : l.Nodup) (hlen : 1 < l.length)
    (s : PyStr) (hs : s ∈ l) : ∃ t ∈ l, t ≠ s := by
  rcases l with - | ⟨x, l⟩
  · cases hs
  · rcases l with - | ⟨y, l⟩
    · simp at hlen
    · rw [List.nodup_cons] at hnd
      have hxy : x ≠ y := fun hh => hnd.1 (hh ▸ List.mem_cons_self y l)
      by_cases hsx : s = x
      · exact ⟨y, List.mem_cons_of_mem x (List.mem_cons_self y l),
          fun hh => hxy (hsx ▸ hh.symm)⟩
      · exact ⟨x, List.mem_cons_self x (y :: l), fun hh => hsx hh.symm⟩

/-! ### Group-structure lemmas for the resolver's main loop -/

lemma key_collision (delim : Char) (inputs : List PyStr) (K : PyStr → Nat)
    (HK1 : ∀ s ∈ inputs, 1 ≤ K s)
    (HKU : ∀ s ∈ inputs, UniqueAt delim inputs (K s) s)
    (i : Nat) (hi : 1 ≤ i) (s t : PyStr) (hs : s ∈ inputs) (ht : t ∈ inputs)
    (hne : s ≠ t)
    (h : _get_suffix s delim (min i (K s)) = _get_suffix t delim (min i (K t))) :
    i < K s ∧ i < K t := by
  have hKs := HK1 s hs
  have hKt := HK1 t ht
  set a := min i (K s) with ha
  set b := min i (K t) with hb
  have ha1 : 1 ≤ a := le_min hi hKs
  have hb1 : 1 ≤ b := le_min hi hKt
  set c := min a b with hc
  have hc1 : 1 ≤ c := le_min ha1 hb1
  have hcol : _get_suffix s delim c = _get_suffix t delim c := by
    have h1 := congrArg (fun u => _get_suffix u delim c) h
    simp only at h1
    rw [get_suffix_get_suffix delim s c a hc1 ha1,
      get_suffix_get_suffix delim t c b hc1 hb1,
      min_eq_left (min_le_left a b), min_eq_left (min_le_right a b)] at h1
    exact h1
  by_contra hcon
  rcases not_and_or.1 hcon with hcs | hct
  · push_neg at hcs
    by_cases hcb : K s ≤ b
    · have hcKs : c = K s := by omega
      have heq : _get_suffix t delim (K s) = _get_suffix s delim (K s) := by
        rw [← hcKs]
        exact hcol.symm
      exact (HKU s hs) t ht (fun hh => hne hh.symm) heq
    · have hbKt : b = K t := by omega
      have hcKt : c = K t := by omega
      have heq : _get_suffix s delim (K t) = _get_suffix t delim (K t) := by
        rw [← hcKt]
        exact hcol
      exact (HKU t ht) s hs hne heq
  · push_neg at hct
    by_cases hca : K t ≤ a
    · have hcKt : c = K t := by omega
      have heq : _get_suffix s delim (K t) = _get_suffix t delim (K t) := by
        rw [← hcKt]
        exact hcol
      exact (HKU t ht) s hs hne heq
    · have haKs : a = K s := by omega
      have hcKs : c = K s := by omega
      have heq : _get_suffix t delim (K s) = _get_suffix s delim (K s) := by
        rw [← hcKs]
        exact hcol.symm
      exact (HKU s hs) t ht (fun hh => hne hh.symm) heq

lemma classify_entries (delim : Char) (inputs : List PyStr) (K : PyStr → Nat)
    (HK1 : ∀ s ∈ inputs, 1 ≤ K s)
    (HKU : ∀ s ∈ inputs, UniqueAt delim inputs (K s) s)
    (HKmin : ∀ s ∈ inputs, ∀ j, 1 ≤ j → j < K s → ¬ UniqueAt delim inputs j s)
    (hin : inputs.Nodup) (i : Nat) (hi : 2 ≤ i) (sd : SuffixDict)
    (hinv : RoundInv delim inputs K i sd) :
    ∀ e ∈ sd, (e.2.length ≤ 1 → ∀ s ∈ e.2, K s ≤ i - 1) ∧
      (1 < e.2.length → ∀ s ∈ e.2, i ≤ K s) := by
  obtain ⟨hmem, hperm, hkeys⟩ := hinv
  have hvnd : (dictVals sd).Nodup := hperm.nodup_iff.2 hin
  intro e he
  constructor
  · intro hlen s hs
    have he2 : e.2 = [s] := by
      rcases e2 : e.2 with - | ⟨x, rest⟩
      · rw [e2] at hs; cases hs
      · rcases rest with - | ⟨y, r⟩
        · rw [e2] at hs
          rcases List.mem_singleton.1 hs with rfl
          rfl
        · rw [e2] at hlen
          simp at hlen
    by_contra hK
    push_neg at hK
    have hi1 : 1 ≤ i - 1 := by omega
    have hs_in : s ∈ inputs := ((hmem e he).2 s hs).1
    have hnotU : ¬ UniqueAt delim inputs (i - 1) s :=
      HKmin s hs_in (i - 1) hi1 (by omega)
    rw [UniqueAt] at hnotU
    push_neg at hnotU
    obtain ⟨t, ht, htne, hteq⟩ := hnotU
    have htv : t ∈ dictVals sd := hperm.mem_iff.2 ht
    obtain ⟨f, hf, htf⟩ := (mem_dictVals sd t).1 htv
    have hKt1 : 1 ≤ K t := HK1 t ht
    have hKt : i - 1 ≤ K t := by
      by_contra hKt2
      push_neg at hKt2
      have h3 := get_suffix_congr_le delim t s (K t) (i - 1) hKt1 (by omega) hteq
      exact (HKU t ht) s hs_in (fun hh => htne hh.symm) h3.symm
    have hkeyf : f.1 = _get_suffix t delim (i - 1) := by
      rw [((hmem f hf).2 t htf).2]
      congr 1
      omega
    have hkeye : e.1 = _get_suffix s delim (i - 1) := by
      rw [((hmem e he).2 s hs).2]
      congr 1
      omega
    have hfe : f = e :=
      entry_eq_of_key sd hkeys f e hf he (by rw [hkeyf, hkeye, hteq])
    rw [hfe, he2] at htf
    exact htne (List.mem_singleton.1 htf)
  · intro hlen s hs
    have hs_in : s ∈ inputs := ((hmem e he).2 s hs).1
    have hnd2 : e.2.Nodup := hvnd.sublist (entry_vals_sublist sd e he)
    obtain ⟨t, ht2, htne⟩ := exists_other_mem e.2 hnd2 hlen s hs
    have ht_in : t ∈ inputs := ((hmem e he).2 t ht2).1
    have hkey : _get_suffix t delim (min (i - 1) (K t))
        = _get_suffix s delim (min (i - 1) (K s)) := by
      rw [← ((hmem e he).2 t ht2).2, ← ((hmem e he).2 s hs).2]
    have h4 := key_collision delim inputs K HK1 HKU (i - 1) (by omega) t s
      ht_in hs_in htne hkey
    omega

lemma foldl_dictAppend_spec (delim : Char) (inputs : List PyStr) (K : PyStr → Nat)
    (lvl : Nat) : ∀ (mem : List PyStr) (nd : SuffixDict),
    (∀ s ∈ mem, s ∈ inputs) →
    (∀ s ∈ mem, _get_suffix s delim lvl = _get_suffix s delim (min lvl (K s))) →
    (∀ e ∈ nd, e.2 ≠ [] ∧ ∀ x ∈ e.2,
      x ∈ inputs ∧ e.1 = _get_suffix x delim (min lvl (K x))) →
    ((nd.map (fun e => e.1)).Nodup) →
    (∀ e ∈ mem.foldl
        (fun acc istr => dictAppend acc (_get_suffix istr delim lvl) istr) nd,
      e.2 ≠ [] ∧ ∀ x ∈ e.2,
        x ∈ inputs ∧ e.1 = _get_suffix x delim (min lvl (K x))) ∧
    (((mem.foldl
        (fun acc istr => dictAppend acc (_get_suffix istr delim lvl) istr) nd).map
      (fun e => e.1)).Nodup) ∧
    (dictVals (mem.foldl
        (fun acc istr => dictAppend acc (_get_suffix istr delim lvl) istr) nd)).Perm
      (dictVals nd ++ mem) := by
  intro mem
  induction mem with
  | nil =>
    intro nd hin hform hnd hkeys
    exact ⟨hnd, hkeys, by simp⟩
  | cons istr mem ih =>
    intro nd hin hform hnd hkeys
    rw [List.foldl_cons]
    have hnd' : ∀ e ∈ dictAppend nd (_get_suffix istr delim lvl) istr,
        e.2 ≠ [] ∧ ∀ x ∈ e.2,
          x ∈ inputs ∧ e.1 = _get_suffix x delim (min lvl (K x)) := by
      intro e' he'
      refine ⟨dictAppend_entry_ne_nil nd _ _ (fun e he => (hnd e he).1) e' he', ?_⟩
      intro x hx
      rcases dictAppend_mem_entry nd _ _ e' he' x hx with ⟨e, he, hkey, hxe⟩ | ⟨hxi, hk⟩
      · have h2 := (hnd e he).2 x hxe
        exact ⟨h2.1, by rw [← hkey, h2.2]⟩
      · constructor
        · rw [hxi]
          exact hin istr (List.mem_cons_self istr mem)
        · rw [hxi, hk]
          exact hform istr (List.mem_cons_self istr mem)
    have hkeys' := dictAppend_keys_nodup nd (_get_suffix istr delim lvl) istr hkeys
    obtain ⟨hp1, hp2, hp3⟩ := ih (dictAppend nd (_get_suffix istr delim lvl) istr)
      (fun s hs => hin s (List.mem_cons_of_mem istr hs))
      (fun s hs => hform s (List.mem_cons_of_mem istr hs)) hnd' hkeys'
    refine ⟨hp1, hp2, ?_⟩
    have h4 : (dictVals (dictAppend nd (_get_suffix istr delim lvl) istr)
        ++ mem).Perm ((dictVals nd ++ [istr]) ++ mem) :=
      (dictVals_dictAppend nd _ istr).append_right mem
    refine hp3.trans (h4.trans ?_)
    simp

lemma suffixRound_go (delim : Char) (inputs : List PyStr) (K : PyStr → Nat)
    (HK1 : ∀ s ∈ inputs, 1 ≤ K s)
    (HKU : ∀ s ∈ inputs, UniqueAt delim inputs (K s) s)
    (i : Nat) (hi : 2 ≤ i) :
    ∀ (rem : List (PyStr × List PyStr)) (nd : SuffixDict) (au : Bool),
    (∀ e ∈ rem, e.2 ≠ [] ∧
      (∀ s ∈ e.2, s ∈ inputs ∧ e.1 = _get_suffix s delim (min (i - 1) (K s))) ∧
      (e.2.length ≤ 1 → ∀ s ∈ e.2, K s ≤ i - 1) ∧
      (1 < e.2.length → ∀ s ∈ e.2, i ≤ K s)) →
    (∀ e ∈ nd, e.2 ≠ [] ∧ ∀ x ∈ e.2,
      x ∈ inputs ∧ e.1 = _get_suffix x delim (min i (K x))) →
    ((nd.map (fun e => e.1)).Nodup) →
    ((dictVals nd ++ dictVals rem).Nodup) →
    (∀ e ∈ (rem.foldl (suffixStep delim i) (nd, au)).1, e.2 ≠ [] ∧ ∀ x ∈ e.2,
      x ∈ inputs ∧ e.1 = _get_suffix x delim (min i (K x))) ∧
    (((rem.foldl (suffixStep delim i) (nd, au)).1.map (fun e => e.1)).Nodup) ∧
    (dictVals (rem.foldl (suffixStep delim i) (nd, au)).1).Perm
      (dictVals nd ++ dictVals rem) ∧
    (rem.foldl (suffixStep delim i) (nd, au)).2
      = (au && rem.all (fun e => decide (e.2.length ≤ 1))) := by
  intro rem
  induction rem with
  | nil =>
    intro nd au hrem hnd hkeys hdisj
    refine ⟨hnd, hkeys, by simp [dictVals_nil], by simp⟩
  | cons e rem ih =>
    intro nd au hrem hnd hkeys hdisj
    rw [List.foldl_cons]
    obtain ⟨hene, hmem, hsing, hmulti⟩ := hrem e (List.mem_cons_self e rem)
    rw [dictVals_cons] at hdisj
    by_cases hml : e.2.length > 1
    · -- multi-member group: extended to level-i suffixes
      have hstep : suffixStep delim i (nd, au) e
          = (e.2.foldl
              (fun acc istr => dictAppend acc (_get_suffix istr delim i) istr) nd,
            false) := by
        rw [suffixStep, if_pos hml]
      rw [hstep]
      have hKge := hmulti hml
      obtain ⟨hq1, hq2, hq3⟩ := foldl_dictAppend_spec delim inputs K i e.2 nd
        (fun s hs => (hmem s hs).1)
        (fun s hs => by rw [min_eq_left (hKge s hs)])
        hnd hkeys
      have hdisj' : (dictVals (e.2.foldl
          (fun acc istr => dictAppend acc (_get_suffix istr delim i) istr) nd)
          ++ dictVals rem).Nodup := by
        have hperm2 : (dictVals (e.2.foldl
            (fun acc istr => dictAppend acc (_get_suffix istr delim i) istr) nd)
            ++ dictVals rem).Perm ((dictVals nd ++ e.2) ++ dictVals rem) :=
          hq3.append_right (dictVals rem)
        rw [hperm2.nodup_iff]
        rwa [← List.append_assoc] at hdisj
      obtain ⟨hr1, hr2, hr3, hr4⟩ := ih _ false
        (fun f hf => hrem f (List.mem_cons_of_mem e hf)) hq1 hq2 hdisj'
      refine ⟨hr1, hr2, ?_, ?_⟩
      · refine hr3.trans ?_
        have h5 : (dictVals (e.2.foldl
            (fun acc istr => dictAppend acc (_get_suffix istr delim i) istr) nd)
            ++ dictVals rem).Perm ((dictVals nd ++ e.2) ++ dictVals rem) :=
          hq3.append_right (dictVals rem)
        refine h5.trans ?_
        rw [dictVals_cons, ← List.append_assoc]
      · rw [hr4]
        have h6 : decide (e.2.length ≤ 1) = false := by
          simp only [decide_eq_false_iff_not]
          omega
        rw [List.all_cons, h6]
        simp
    · -- singleton group: copied unchanged
      have hstep : suffixStep delim i (nd, au) e = (dictSet nd e.1 e.2, au) := by
        rw [suffixStep, if_neg hml]
      rw [hstep]
      have hsle : e.2.length ≤ 1 := by omega
      have hKle := hsing hsle
      have hkform : ∀ s ∈ e.2, e.1 = _get_suffix s delim (min i (K s)) := by
        intro s hs
        have h7 := (hmem s hs).2
        have h8 : min (i - 1) (K s) = min i (K s) := by
          have := hKle s hs
          omega
        rw [h7, h8]
      have hfresh : e.1 ∉ nd.map (fun f => f.1) := by
        intro hk
        rcases List.mem_map.1 hk with ⟨f, hf, hf1⟩
        obtain ⟨hfne, hfm⟩ := hnd f hf
        rcases List.exists_mem_of_ne_nil f.2 hfne with ⟨x, hx⟩
        obtain ⟨hxin, hxkey⟩ := hfm x hx
        rcases List.exists_mem_of_ne_nil e.2 hene with ⟨s, hs⟩
        have hsin := (hmem s hs).1
        have hxs : x ≠ s := by
          intro hh
          have hdj := List.disjoint_of_nodup_append hdisj
          exact hdj ((mem_dictVals nd x).2 ⟨f, hf, hx⟩)
            (hh ▸ List.mem_append_left _ hs)
        have hcoll : _get_suffix x delim (min i (K x))
            = _get_suffix s delim (min i (K s)) := by
          rw [← hxkey, hf1, hkform s hs]
        have h9 := key_collision delim inputs K HK1 HKU i (by omega) x s
          hxin hsin hxs hcoll
        have := hKle s hs
        omega
      rw [dictSet_not_mem nd e.1 e.2 hfresh]
      have hnd' : ∀ f ∈ nd ++ [(e.1, e.2)], f.2 ≠ [] ∧ ∀ x ∈ f.2,
          x ∈ inputs ∧ f.1 = _get_suffix x delim (min i (K x)) := by
        intro f hf
        rcases List.mem_append.1 hf with hf2 | hf2
        · exact hnd f hf2
        · rcases List.mem_singleton.1 hf2 with rfl
          exact ⟨hene, fun x hx => ⟨(hmem x hx).1, hkform x hx⟩⟩
      have hkeys' : ((nd ++ [(e.1, e.2)]).map (fun f => f.1)).Nodup := by
        rw [List.map_append, List.nodup_append]
        exact ⟨hkeys, by simp,
          fun a ha hb => hfresh ((List.mem_singleton.1 (by simpa using hb)) ▸ ha)⟩
      have hvals' : dictVals (nd ++ [(e.1, e.2)]) = dictVals nd ++ e.2 := by
        rw [dictVals_append]
        simp [dictVals]
      have hdisj' : (dictVals (nd ++ [(e.1, e.2)]) ++ dictVals rem).Nodup := by
        rw [hvals', List.append_assoc]
        exact hdisj
      obtain ⟨hr1, hr2, hr3, hr4⟩ := ih _ au
        (fun f hf => hrem f (List.mem_cons_of_mem e hf)) hnd' hkeys' hdisj'
      refine ⟨hr1, hr2, ?_, ?_⟩
      · refine hr3.trans ?_
        rw [hvals', List.append_assoc, dictVals_cons]
      · rw [hr4, List.all_cons]
        have h10 : decide (e.2.length ≤ 1) = true := by simpa using hsle
        rw [h10]
        simp

lemma suffixRound_spec (delim : Char) (inputs : List PyStr) (K : PyStr → Nat)
    (HK1 : ∀ s ∈ inputs, 1 ≤ K s)
    (HKU : ∀ s ∈ inputs, UniqueAt delim inputs (K s) s)
    (HKmin : ∀ s ∈ inputs, ∀ j, 1 ≤ j → j < K s → ¬ UniqueAt delim inputs j s)
    (hin : inputs.Nodup) (i : Nat) (hi : 2 ≤ i) (sd : SuffixDict)
    (hinv : RoundInv delim inputs K i sd) :
    RoundInv delim inputs K (i + 1) (suffixRound delim i sd).1 ∧
    ((suffixRound delim i sd).2 = true ↔ ∀ e ∈ sd, e.2.length ≤ 1) := by
  obtain ⟨hmem0, hperm0, hkeys0⟩ := hinv
  have hclass := classify_entries delim inputs K HK1 HKU HKmin hin i hi sd
    ⟨hmem0, hperm0, hkeys0⟩
  have hvnd : (dictVals sd).Nodup := hperm0.nodup_iff.2 hin
  have hrem : ∀ e ∈ sd, e.2 ≠ [] ∧
      (∀ s ∈ e.2, s ∈ inputs ∧ e.1 = _get_suffix s delim (min (i - 1) (K s))) ∧
      (e.2.length ≤ 1 → ∀ s ∈ e.2, K s ≤ i - 1) ∧
      (1 < e.2.length → ∀ s ∈ e.2, i ≤ K s) := by
    intro e he
    exact ⟨(hmem0 e he).1, (hmem0 e he).2, (hclass e he).1, (hclass e he).2⟩
  obtain ⟨hr1, hr2, hr3, hr4⟩ := suffixRound_go delim inputs K HK1 HKU i hi sd [] true
    hrem (by intro e he; cases he) (by simp)
    (by rw [dictVals_nil, List.nil_append]; exact hvnd)
  constructor
  · refine ⟨?_, ?_, hr2⟩
    · intro e he
      have h := hr1 e he
      refine ⟨h.1, ?_⟩
      intro s hs
      have h2 := h.2 s hs
      exact ⟨h2.1, h2.2⟩
    · refine hr3.trans ?_
      rw [dictVals_nil, List.nil_append]
      exact hperm0
  · rw [suffixRound, hr4]
    simp [List.all_eq_true]

lemma entry_singleton (l : List PyStr) (s : PyStr) (hlen : l.length ≤ 1)
    (hs : s ∈ l) : l = [s] := by
  rcases l with - | ⟨x, rest⟩
  · cases hs
  · rcases rest with - | ⟨y, r⟩
    · rcases List.mem_singleton.1 hs with rfl
      rfl
    · simp at hlen

lemma singleton_vals_len (sd : SuffixDict) (hall : ∀ e ∈ sd, e.2.length ≤ 1)
    (hne : ∀ e ∈ sd, e.2 ≠ []) : (dictVals sd).length = sd.length := by
  induction sd with
  | nil => rfl
  | cons e rest ih =>
    rw [dictVals_cons, List.length_append, List.length_cons,
      ih (fun f hf => hall f (List.mem_cons_of_mem e hf))
        (fun f hf => hne f (List.mem_cons_of_mem e hf))]
    have h1 := hall e (List.mem_cons_self e rest)
    have h2 := hne e (List.mem_cons_self e rest)
    have h3 : 0 < e.2.length := List.length_pos.2 h2
    omega

lemma heads_eq_vals (sd : SuffixDict) (hall : ∀ e ∈ sd, e.2.length ≤ 1)
    (hne : ∀ e ∈ sd, e.2 ≠ []) :
    sd.map (fun e => e.2.headD []) = dictVals sd := by
  induction sd with
  | nil => rfl
  | cons e rest ih =>
    rw [List.map_cons, dictVals_cons]
    have h2 := hne e (List.mem_cons_self e rest)
    rcases List.exists_mem_of_ne_nil e.2 h2 with ⟨x, hx⟩
    have he2 : e.2 = [x] := entry_singleton e.2 x (hall e (List.mem_cons_self e rest)) hx
    rw [he2, ih (fun f hf => hall f (List.mem_cons_of_mem e hf))
      (fun f hf => hne f (List.mem_cons_of_mem e hf))]
    rfl

lemma success_map_lookup (delim : Char) (inputs : List PyStr) (K : PyStr → Nat)
    (HK1 : ∀ s ∈ inputs, 1 ≤ K s)
    (HKU : ∀ s ∈ inputs, UniqueAt delim inputs (K s) s)
    (HKmin : ∀ s ∈ inputs, ∀ j, 1 ≤ j → j < K s → ¬ UniqueAt delim inputs j s)
    (hin : inputs.Nodup) (i : Nat) (hi : 2 ≤ i) (sd : SuffixDict)
    (hinv : RoundInv delim inputs K i sd)
    (hall : ∀ e ∈ sd, e.2.length ≤ 1) :
    ∀ s ∈ inputs, (sd.map (fun e => (e.2.headD [], e.1))).lookup s
      = some (_get_suffix s delim (K s)) := by
  obtain ⟨hmem0, hperm0, hkeys0⟩ := hinv
  have hclass := classify_entries delim inputs K HK1 HKU HKmin hin i hi sd
    ⟨hmem0, hperm0, hkeys0⟩
  have hvnd : (dictVals sd).Nodup := hperm0.nodup_iff.2 hin
  intro s hs
  obtain ⟨e, he, hse⟩ := (mem_dictVals sd s).1 (hperm0.mem_iff.2 hs)
  have hKle := (hclass e he).1 (hall e he) s hse
  have he2 : e.2 = [s] := entry_singleton e.2 s (hall e he) hse
  have hmm : (s, e.1) ∈ sd.map (fun e => (e.2.headD [], e.1)) := by
    refine List.mem_map.2 ⟨e, he, ?_⟩
    rw [he2]
    rfl
  have hnd : ((sd.map (fun e => (e.2.headD [], e.1))).map (fun p => p.1)).Nodup := by
    rw [List.map_map]
    have h3 : sd.map ((fun p : PyStr × PyStr => p.1) ∘ (fun e : PyStr × List PyStr =>
        (e.2.headD [], e.1))) = sd.map (fun e => e.2.headD []) := rfl
    rw [h3, heads_eq_vals sd hall (fun f hf => (hmem0 f hf).1)]
    exact hvnd
  rw [lookup_of_mem_nodup _ s e.1 hnd hmm]
  have hkey := ((hmem0 e he).2 s hse).2
  have hmin : min (i - 1) (K s) = K s := min_eq_right hKle
  rw [hkey, hmin]

lemma resolveLoop_spec (delim : Char) (inputs : List PyStr) (K : PyStr → Nat)
    (HK1 : ∀ s ∈ inputs, 1 ≤ K s)
    (HKU : ∀ s ∈ inputs, UniqueAt delim inputs (K s) s)
    (HKmin : ∀ s ∈ inputs, ∀ j, 1 ≤ j → j < K s → ¬ UniqueAt delim inputs j s)
    (hin : inputs.Nodup) (maxChunks : Nat)
    (hbound : ∀ s ∈ inputs, K s ≤ maxChunks) :
    ∀ (fuel : Nat), ∀ (i : Nat) (sd : SuffixDict), 1 ≤ fuel → 2 ≤ i →
    fuel + i = maxChunks + 2 → RoundInv delim inputs K i sd →
    ∀ s ∈ inputs, (resolveLoop delim inputs fuel i sd).lookup s
      = some (_get_suffix s delim (K s)) := by
  intro fuel
  induction fuel with
  | zero =>
    intro i sd hf
    exact absurd hf (by omega)
  | succ fuel ih =>
    intro i sd hf hi hsum hinv s hs
    obtain ⟨hinv', hau⟩ :=
      suffixRound_spec delim inputs K HK1 HKU HKmin hin i hi sd hinv
    obtain ⟨hmem0, hperm0, hkeys0⟩ := hinv
    by_cases hau2 : (suffixRound delim i sd).2 = true
    · have hall := hau.1 hau2
      have hlen : inputs.dedup.length = sd.length := by
        have h1 : (dictVals sd).length = sd.length :=
          singleton_vals_len sd hall (fun e he => (hmem0 e he).1)
        have h2 : (dictVals sd).length = inputs.length := hperm0.length_eq
        rw [List.Nodup.dedup hin]
        omega
      rw [resolveLoop]
      simp only [hau2, if_true]
      rw [if_neg (by omega)]
      exact success_map_lookup delim inputs K HK1 HKU HKmin hin i hi sd
        ⟨hmem0, hperm0, hkeys0⟩ hall s hs
    · rw [Bool.not_eq_true] at hau2
      have hex : ∃ e ∈ sd, 1 < e.2.length := by
        by_contra hc
        push_neg at hc
        rw [hau.2 (fun e he => by have := hc e he; omega)] at hau2
        cases hau2
      obtain ⟨e, he, hel⟩ := hex
      rcases List.exists_mem_of_ne_nil e.2 (hmem0 e he).1 with ⟨x, hx⟩
      have hclass := classify_entries delim inputs K HK1 HKU HKmin hin i hi sd
        ⟨hmem0, hperm0, hkeys0⟩
      have hKx : i ≤ K x := (hclass e he).2 hel x hx
      have hxin : x ∈ inputs := ((hmem0 e he).2 x hx).1
      have hiMax : i ≤ maxChunks := le_trans hKx (hbound x hxin)
      rw [resolveLoop]
      simp only [hau2, Bool.false_eq_true, if_false]
      exact ih (i + 1) (suffixRound delim i sd).1 (by omega) (by omega) (by omega)
        hinv' s hs

lemma chunkSuffixOf_iff (delim : Char) (s t : PyStr) (j : Nat) (hj : 1 ≤ j) :
    chunkSuffixOf delim (_get_suffix s delim j) t ↔
      _get_suffix t delim (min j (pySplit delim s).length) = _get_suffix s delim j := by
  have hlens : 1 ≤ (pySplit delim s).length :=
    List.length_pos.2 (pySplit_ne_nil delim s)
  have hc : pySplit delim (_get_suffix s delim j) = takeLast j (pySplit delim s) :=
    pySplit_get_suffix delim s j hj
  have hlen2 : (pySplit delim (_get_suffix s delim j)).length
      = min j (pySplit delim s).length := by
    rw [hc, takeLast_length]
  constructor
  · intro h
    have h2 := takeLast_eq_of_suffix _ _ h
    have h3 := congrArg (pyJoin delim) h2
    rw [pyJoin_pySplit] at h3
    rw [hlen2] at h3
    exact h3
  · intro h
    have hmin1 : 1 ≤ min j (pySplit delim s).length := le_min hj hlens
    unfold chunkSuffixOf
    rw [← h, pySplit_get_suffix delim t _ hmin1]
    exact takeLast_suffix _ _

lemma uniqueAt_of_no_chunkSuffix (delim : Char) (inputs : List PyStr) (s : PyStr)
    (k : Nat) (hk : 1 ≤ k)
    (h : ∀ t ∈ inputs, t ≠ s → ¬ chunkSuffixOf delim (_get_suffix s delim k) t) :
    UniqueAt delim inputs k s := by
  intro t ht htne heq
  refine h t ht htne ?_
  unfold chunkSuffixOf
  rw [← heq, pySplit_get_suffix delim t k hk]
  exact takeLast_suffix _ _

lemma resolver_spec (delim : Char) (inputs : List PyStr) (K : PyStr → Nat)
    (HK1 : ∀ s ∈ inputs, 1 ≤ K s)
    (HKU : ∀ s ∈ inputs, UniqueAt delim inputs (K s) s)
    (HKmin : ∀ s ∈ inputs, ∀ j, 1 ≤ j → j < K s → ¬ UniqueAt delim inputs j s)
    (hin : inputs.Nodup) (hne : inputs ≠ []) :
    ∃ m, _get_shortest_unique_suffix_dict inputs delim = Except.ok m ∧
      ∀ s ∈ inputs, m.lookup s = some (_get_suffix s delim (K s)) := by
  have hdedup : inputs.dedup = inputs := List.Nodup.dedup hin
  have hMpos : ∀ s ∈ inputs, (pySplit delim s).length
      ≤ maxNat (inputs.map (fun t => (pySplit delim t).length)) := by
    intro s hs
    exact le_maxNat _ _ (List.mem_map.2 ⟨s, hs, rfl⟩)
  have hbound : ∀ s ∈ inputs,
      K s ≤ maxNat (inputs.map (fun t => (pySplit delim t).length)) := by
    intro s hs
    by_contra hc
    push_neg at hc
    have hU : UniqueAt delim inputs
        (maxNat (inputs.map (fun t => (pySplit delim t).length))) s := by
      intro t ht htne
      rw [get_suffix_of_le_length delim t _ (hMpos t ht),
        get_suffix_of_le_length delim s _ (hMpos s hs)]
      exact htne
    have h1 : 1 ≤ maxNat (inputs.map (fun t => (pySplit delim t).length)) := by
      rcases List.exists_mem_of_ne_nil inputs hne with ⟨x, hx⟩
      have h2 := hMpos x hx
      have h4 : 0 < (pySplit delim x).length :=
        List.length_pos.2 (pySplit_ne_nil delim x)
      omega
    exact HKmin s hs _ h1 hc hU
  obtain ⟨s0, rest, rfl⟩ := List.exists_cons_of_ne_nil hne
  have hchar : _get_shortest_unique_suffix_dict (s0 :: rest) delim =
      (if maxNat ((s0 :: rest).map (fun t => (pySplit delim t).length)) = 1 then
        Except.ok ((s0 :: rest).map (fun t => (t, t)))
      else
        Except.ok (resolveLoop delim (s0 :: rest)
          (maxNat ((s0 :: rest).map (fun t => (pySplit delim t).length))) 2
          ((s0 :: rest).foldl
            (fun dct istr => dictAppend dct (_get_suffix istr delim 1) istr) []))) := by
    unfold _get_shortest_unique_suffix_dict
    rw [if_neg (by rw [hdedup]; simp)]
  by_cases hM : maxNat ((s0 :: rest).map (fun t => (pySplit delim t).length)) = 1
  · refine ⟨(s0 :: rest).map (fun t => (t, t)), by rw [hchar, if_pos hM], ?_⟩
    intro s hs
    have hnd2 : (((s0 :: rest).map (fun t => (t, t))).map (fun p => p.1)).Nodup := by
      rw [List.map_map]
      have h5 : ((fun p : PyStr × PyStr => p.1) ∘ (fun t : PyStr => (t, t)))
          = id := rfl
      rw [h5, List.map_id]
      exact hin
    rw [lookup_of_mem_nodup _ s s hnd2 (List.mem_map.2 ⟨s, hs, rfl⟩)]
    have hKs : K s = 1 := by
      have h1 := HK1 s hs
      have h2 := hbound s hs
      omega
    rw [hKs, get_suffix_of_le_length delim s 1 (by have := hMpos s hs; omega)]
  · have hM1 : 1 ≤ maxNat ((s0 :: rest).map (fun t => (pySplit delim t).length)) := by
      have h2 := hMpos s0 (List.mem_cons_self s0 rest)
      have h4 : 0 < (pySplit delim s0).length :=
        List.length_pos.2 (pySplit_ne_nil delim s0)
      omega
    obtain ⟨hp1, hp2, hp3⟩ := foldl_dictAppend_spec delim (s0 :: rest) K 1
      (s0 :: rest) [] (fun s hs => hs)
      (fun s hs => by rw [min_eq_left (HK1 s hs)])
      (by intro e he; cases he) (by simp)
    have hinv : RoundInv delim (s0 :: rest) K 2 ((s0 :: rest).foldl
        (fun dct istr => dictAppend dct (_get_suffix istr delim 1) istr) []) := by
      refine ⟨hp1, ?_, hp2⟩
      simpa using hp3
    refine ⟨resolveLoop delim (s0 :: rest)
      (maxNat ((s0 :: rest).map (fun t => (pySplit delim t).length))) 2
      ((s0 :: rest).foldl
        (fun dct istr => dictAppend dct (_get_suffix istr delim 1) istr) []),
      by rw [hchar, if_neg hM], ?_⟩
    intro s hs
    exact resolveLoop_spec delim (s0 :: rest) K HK1 HKU HKmin hin
      (maxNat ((s0 :: rest).map (fun t => (pySplit delim t).length))) hbound
      (maxNat ((s0 :: rest).map (fun t => (pySplit delim t).length))) 2
      ((s0 :: rest).foldl
        (fun dct istr => dictAppend dct (_get_suffix istr delim 1) istr) [])
      (by omega) (by omega) (by omega) hinv s hs

/-- C6: the suffix-uniqueness resolver maps `["a.b.x", "c.d.x", "a.b.y"]` with
delimiter `.` to exactly `{"a.b.x": "b.x", "c.d.x": "d.x", "a.b.y": "y"}`; and
in general, for pairwise-distinct inputs, it succeeds and maps every input `s`
to `_get_suffix s delim k` whenever `k ≥ 1` chunks make the trailing suffix of
`s` one that is a chunk-suffix of no other input while every shorter chunk
count fails to do so — i.e. the shortest trailing suffix, counted in
delimiter-separated chunks with minimum 1, that uniquely identifies `s` among
all inputs. -/
theorem claim_C6 :
    (_get_shortest_unique_suffix_dict
        ["a.b.x".toList, "c.d.x".toList, "a.b.y".toList] '.'
      = Except.ok [("a.b.x".toList, "b.x".toList), ("c.d.x".toList, "d.x".toList),
          ("a.b.y".toList, "y".toList)]) ∧
    (∀ (delim : Char) (inputs : List PyStr) (s : PyStr) (k : Nat),
      inputs.Nodup → s ∈ inputs → 1 ≤ k →
      (∀ t ∈ inputs, t ≠ s → ¬ chunkSuffixOf delim (_get_suffix s delim k) t) →
      (∀ j, 1 ≤ j → j < k →
        ∃ t ∈ inputs, t ≠ s ∧ chunkSuffixOf delim (_get_suffix s delim j) t) →
      ∃ m, _get_shortest_unique_suffix_dict inputs delim = Except.ok m ∧
        m.lookup s = some (_get_suffix s delim k)) := by
  constructor
  · rfl
  · intro delim inputs s k hin hs hk1 hUniq hMin
    classical
    have hne : inputs ≠ [] := fun h => by rw [h] at hs; cases hs
    have hexAll : ∀ t : PyStr, ∃ n, 1 ≤ n ∧ UniqueAt delim inputs n t := by
      intro t
      refine ⟨max (pySplit delim t).length
        (maxNat (inputs.map (fun u => (pySplit delim u).length))) + 1,
        by omega, ?_⟩
      intro u hu hune
      have hb1 : (pySplit delim t).length ≤ max (pySplit delim t).length
          (maxNat (inputs.map (fun u => (pySplit delim u).length))) + 1 := by
        have := le_max_left (pySplit delim t).length
          (maxNat (inputs.map (fun u => (pySplit delim u).length)))
        omega
      have hb2 : (pySplit delim u).length ≤ max (pySplit delim t).length
          (maxNat (inputs.map (fun u => (pySplit delim u).length))) + 1 := by
        have h2 := le_maxNat (inputs.map (fun u => (pySplit delim u).length))
          (pySplit delim u).length (List.mem_map.2 ⟨u, hu, rfl⟩)
        have := le_max_right (pySplit delim t).length
          (maxNat (inputs.map (fun u => (pySplit delim u).length)))
        omega
      rw [get_suffix_of_le_length delim u _ hb2, get_suffix_of_le_length delim t _ hb1]
      exact hune
    obtain ⟨m, hok, hlook⟩ := resolver_spec delim inputs
      (fun t => Nat.find (hexAll t))
      (fun t ht => (Nat.find_spec (hexAll t)).1)
      (fun t ht => (Nat.find_spec (hexAll t)).2)
      (fun t ht j hj1 hjlt hU => Nat.find_min (hexAll t) hjlt ⟨hj1, hU⟩)
      hin hne
    have hK1s : 1 ≤ Nat.find (hexAll s) := (Nat.find_spec (hexAll s)).1
    have hKUs : UniqueAt delim inputs (Nat.find (hexAll s)) s :=
      (Nat.find_spec (hexAll s)).2
    have hUk : UniqueAt delim inputs k s :=
      uniqueAt_of_no_chunkSuffix delim inputs s k hk1 hUniq
    have hKsk : Nat.find (hexAll s) ≤ k := Nat.find_le ⟨hk1, hUk⟩
    refine ⟨m, hok, ?_⟩
    rw [hlook s hs]
    by_cases hlen : (pySplit delim s).length ≤ Nat.find (hexAll s)
    · rw [get_suffix_of_le_length delim s _ hlen,
        get_suffix_of_le_length delim s _ (le_trans hlen hKsk)]
    · push_neg at hlen
      have hread2 : ∀ t ∈ inputs, t ≠ s →
          ¬ chunkSuffixOf delim (_get_suffix s delim (Nat.find (hexAll s))) t := by
        intro t ht htne hcs
        have h6 := (chunkSuffixOf_iff delim s t (Nat.find (hexAll s)) hK1s).1 hcs
        rw [min_eq_left (le_of_lt hlen)] at h6
        exact hKUs t ht htne h6
      have hkKs : k ≤ Nat.find (hexAll s) := by
        by_contra hc
        push_neg at hc
        obtain ⟨t, ht, htne, hcs⟩ := hMin (Nat.find (hexAll s)) hK1s hc
        exact hread2 t ht htne hcs
      have hkeq : Nat.find (hexAll s) = k := le_antisymm hKsk hkKs
      rw [hkeq]

theorem claim_C6_witness :
    ∃ m, _get_shortest_unique_suffix_dict ["b.c".toList, "a.c".toList] '.'
        = Except.ok m ∧
      m.lookup "b.c".toList = some (_get_suffix "b.c".toList '.' 2) :=
  claim_C6.2 '.' ["b.c".toList, "a.c".toList] "b.c".toList 2
    (by decide) (by decide) (by decide)
    (by
      intro t ht htne hcs
      unfold chunkSuffixOf at hcs
      rcases List.mem_cons.1 ht with rfl | ht2
      · exact htne rfl
      · rcases List.mem_cons.1 ht2 with rfl | ht3
        · revert hcs
          decide
        · cases ht3)
    (by
      intro j hj1 hjlt
      have hj : j = 1 := by omega
      subst hj
      refine ⟨"a.c".toList, by decide, by decide, ?_⟩
      unfold chunkSuffixOf
      exact ⟨[['a']], by decide⟩)

/-! ### Lemmas for the report utilities -/

lemma except_bind_ok {e a b : Type} (x : a) (f : a → Except e b) :
    Except.bind (Except.ok x) f = f x := rfl

lemma filter_take_one {α : Type} (p : α → Bool) (l : List α) (x : α)
    (h : l.find? p = some x) : (l.filter p).take 1 = [x] := by
  induction l with
  | nil => cases h
  | cons a l ih =>
    by_cases hp : p a = true
    · rw [List.find?_cons_of_pos _ hp] at h
      cases h
      simp [List.filter_cons, hp]
    · rw [List.find?_cons_of_neg _ hp] at h
      rw [List.filter_cons, if_neg hp]
      exact ih h

lemma foldl_qmin_mem (l : List ℚ) : ∀ q : ℚ, l.foldl min q ∈ q :: l := by
  induction l with
  | nil => intro q; exact List.mem_singleton.2 rfl
  | cons x l ih =>
    intro q
    rw [List.foldl_cons]
    rcases List.mem_cons.1 (ih (min q x)) with h | h
    · rcases min_choice q x with h2 | h2
      · rw [h, h2]; exact List.mem_cons_self _ _
      · rw [h, h2]; exact List.mem_cons_of_mem _ (List.mem_cons_self _ _)
    · exact List.mem_cons_of_mem _ (List.mem_cons_of_mem _ h)

lemma foldl_qmin_le_init (l : List ℚ) : ∀ q : ℚ, l.foldl min q ≤ q := by
  induction l with
  | nil => intro q; exact le_refl q
  | cons x l ih =>
    intro q
    rw [List.foldl_cons]
    exact le_trans (ih (min q x)) (min_le_left q x)

lemma foldl_qmin_le (l : List ℚ) : ∀ q x, x ∈ l → l.foldl min q ≤ x := by
  induction l with
  | nil => intro q x hx; cases hx
  | cons y l ih =>
    intro q x hx
    rw [List.foldl_cons]
    rcases List.mem_cons.1 hx with rfl | hx2
    · exact le_trans (foldl_qmin_le_init l (min q x)) (min_le_right q x)
    · exact ih (min q y) x hx2

lemma foldl_qmax_mem (l : List ℚ) : ∀ q : ℚ, l.foldl max q ∈ q :: l := by
  induction l with
  | nil => intro q; exact List.mem_singleton.2 rfl
  | cons x l ih =>
    intro q
    rw [List.foldl_cons]
    rcases List.mem_cons.1 (ih (max q x)) with h | h
    · rcases max_choice q x with h2 | h2
      · rw [h, h2]; exact List.mem_cons_self _ _
      · rw [h, h2]; exact List.mem_cons_of_mem _ (List.mem_cons_self _ _)
    · exact List.mem_cons_of_mem _ (List.mem_cons_of_mem _ h)

lemma foldl_qmax_init (l : List ℚ) : ∀ q : ℚ, q ≤ l.foldl max q := by
  induction l with
  | nil => intro q; exact le_refl q
  | cons x l ih =>
    intro q
    rw [List.foldl_cons]
    exact le_trans (le_max_left q x) (ih (max q x))

lemma foldl_qmax_ge (l : List ℚ) : ∀ q x, x ∈ l → x ≤ l.foldl max q := by
  induction l with
  | nil => intro q x hx; cases hx
  | cons y l ih =>
    intro q x hx
    rw [List.foldl_cons]
    rcases List.mem_cons.1 hx with rfl | hx2
    · exact le_trans (le_max_right q x) (foldl_qmax_init l (max q x))
    · exact ih (max q y) x hx2

lemma float_cells_mem (rows : List Row) (c : String) (q' : ℚ) :
    q' ∈ (rows.map (fun r => rowGet r c)).filterMap (fun v =>
      match v with | Val.f q => some q | _ => Option.none) ↔
    ∃ r ∈ rows, rowGet r c = Val.f q' := by
  rw [List.mem_filterMap]
  constructor
  · rintro ⟨v, hv, hvq⟩
    rcases List.mem_map.1 hv with ⟨r, hr, rfl⟩
    refine ⟨r, hr, ?_⟩
    rcases hv2 : rowGet r c with n | st | q2 | -
    · rw [hv2] at hvq; simp at hvq
    · rw [hv2] at hvq; simp at hvq
    · rw [hv2] at hvq
      simp at hvq
      rw [hvq]
    · rw [hv2] at hvq; simp at hvq
  · rintro ⟨r, hr, hq⟩
    exact ⟨rowGet r c, List.mem_map.2 ⟨r, hr, rfl⟩, by rw [hq]⟩

lemma colMin_spec (rows : List Row) (c : String)
    (h : ∃ r ∈ rows, ∃ q : ℚ, rowGet r c = Val.f q) :
    ∃ qm : ℚ, colMin rows c = Val.f qm ∧ (∃ r ∈ rows, rowGet r c = Val.f qm) ∧
      ∀ r ∈ rows, ∀ q : ℚ, rowGet r c = Val.f q → qm ≤ q := by
  rcases hfl : (rows.map (fun r => rowGet r c)).filterMap (fun v =>
      match v with | Val.f q => some q | _ => Option.none) with - | ⟨q0, qs⟩
  · obtain ⟨r, hr, q, hq⟩ := h
    have h2 := (float_cells_mem rows c q).2 ⟨r, hr, hq⟩
    rw [hfl] at h2
    cases h2
  · have hcm : colMin rows c = Val.f (qs.foldl min q0) := by
      unfold colMin
      rw [hfl]
    refine ⟨qs.foldl min q0, hcm, ?_, ?_⟩
    · apply (float_cells_mem rows c _).1
      rw [hfl]
      exact foldl_qmin_mem qs q0
    · intro r hr q hq
      have h3 := (float_cells_mem rows c q).2 ⟨r, hr, hq⟩
      rw [hfl] at h3
      rcases List.mem_cons.1 h3 with rfl | h4
      · exact foldl_qmin_le_init qs q
      · exact foldl_qmin_le qs q0 q h4

lemma colMax_spec (rows : List Row) (c : String)
    (h : ∃ r ∈ rows, ∃ q : ℚ, rowGet r c = Val.f q) :
    ∃ qm : ℚ, colMax rows c = Val.f qm ∧ (∃ r ∈ rows, rowGet r c = Val.f qm) ∧
      ∀ r ∈ rows, ∀ q : ℚ, rowGet r c = Val.f q → q ≤ qm := by
  rcases hfl : (rows.map (fun r => rowGet r c)).filterMap (fun v =>
      match v with | Val.f q => some q | _ => Option.none) with - | ⟨q0, qs⟩
  · obtain ⟨r, hr, q, hq⟩ := h
    have h2 := (float_cells_mem rows c q).2 ⟨r, hr, hq⟩
    rw [hfl] at h2
    cases h2
  · have hcm : colMax rows c = Val.f (qs.foldl max q0) := by
      unfold colMax
      rw [hfl]
    refine ⟨qs.foldl max q0, hcm, ?_, ?_⟩
    · apply (float_cells_mem rows c _).1
      rw [hfl]
      exact foldl_qmax_mem qs q0
    · intro r hr q hq
      have h3 := (float_cells_mem rows c q).2 ⟨r, hr, hq⟩
      rw [hfl] at h3
      rcases List.mem_cons.1 h3 with rfl | h4
      · exact foldl_qmax_init qs q
      · exact foldl_qmax_ge qs q0 q h4

lemma get_best_trial_fst (exp : AxExperiment) (metric : String) (minimize : Bool)
    (am kc rmf : Option (List String))
    (hcfg : exp.optimizationConfig = some ⟨Objective.plain metric minimize⟩) :
    (get_best_trial exp am kc rmf).1 = amWithObjective am metric := by
  unfold get_best_trial
  rw [hcfg]

lemma get_best_trial_plain_ok (exp : AxExperiment) (metric : String)
    (minimize : Bool) (am kc rmf : Option (List String)) (df : List Row)
    (hcfg : exp.optimizationConfig = some ⟨Objective.plain metric minimize⟩)
    (hok : exp_to_df exp (amWithObjective am metric) kc rmf = Except.ok df) :
    (get_best_trial exp am kc rmf).2 =
      if df.length = 0 then Except.ok Option.none
      else Except.ok (some ((df.filter (fun r => cellEq (rowGet r metric)
        (if minimize then colMin df metric else colMax df metric))).take 1)) := by
  have hshow : (get_best_trial exp am kc rmf).2 =
      Except.bind (exp_to_df exp (amWithObjective am metric) kc rmf)
        (fun trials_df =>
          if trials_df.length = 0 then Except.ok Option.none
          else Except.ok (some ((trials_df.filter (fun r => cellEq (rowGet r metric)
            (if minimize then colMin trials_df metric
             else colMax trials_df metric))).take 1))) := by
    unfold get_best_trial
    rw [hcfg]
    rfl
  rw [hshow, hok, except_bind_ok]

/-- C7: for a plain single-metric objective, `get_best_trial` selects exactly
one row, the first row of the `exp_to_df` table whose objective-metric value
equals the table-wide minimum (when minimizing; maximum when maximizing) —
for the values 5.0, 2.0, 8.0 under minimization it is the row with 2.0 — and
it returns None, rather than failing, for a MultiObjective or
ScalarizedObjective experiment or when the table has no rows. -/
theorem claim_C7 :
    (∃ r, (get_best_trial bestTrialSample Option.none Option.none Option.none).2
        = Except.ok (some [r]) ∧ rowGet r "m" = Val.f 2) ∧
    (∀ (exp : AxExperiment) (metric : String) (minimize : Bool)
      (am kc rmf : Option (List String)) (df : List Row),
      exp.optimizationConfig = some ⟨Objective.plain metric minimize⟩ →
      exp_to_df exp (amWithObjective am metric) kc rmf = Except.ok df →
      df ≠ [] →
      (∃ r ∈ df, ∃ q : ℚ, rowGet r metric = Val.f q) →
      ∃ r0, df.find? (fun r => cellEq (rowGet r metric)
          (if minimize then colMin df metric else colMax df metric)) = some r0 ∧
        (get_best_trial exp am kc rmf).2 = Except.ok (some [r0]) ∧
        ∃ qm : ℚ, (if minimize then colMin df metric else colMax df metric)
            = Val.f qm ∧
          (∃ r1 ∈ df, rowGet r1 metric = Val.f qm) ∧
          (∀ r ∈ df, ∀ q : ℚ, rowGet r metric = Val.f q →
            if minimize then qm ≤ q else q ≤ qm)) ∧
    (∀ (exp : AxExperiment) (am kc rmf : Option (List String)) (cfg : OptConfig),
      exp.optimizationConfig = some cfg →
      (cfg.objective = Objective.multi ∨ cfg.objective = Objective.scalarized) →
      (get_best_trial exp am kc rmf).2 = Except.ok Option.none) ∧
    (∀ (exp : AxExperiment) (metric : String) (minimize : Bool)
      (am kc rmf : Option (List String)),
      exp.optimizationConfig = some ⟨Objective.plain metric minimize⟩ →
      exp_to_df exp (amWithObjective am metric) kc rmf = Except.ok [] →
      (get_best_trial exp am kc rmf).2 = Except.ok Option.none) := by
  refine ⟨?_, ?_, ?_, ?_⟩
  · exact ⟨[("m", Val.f 2), ("trial_index", Val.i 1), ("arm_name", Val.s "1_0"),
      ("trial_status", Val.s "COMPLETED")], rfl, rfl⟩
  · intro exp metric minimize am kc rmf df hcfg hok hne hfl
    obtain ⟨qm, hqm, hqmmem, hqmbd⟩ :
        ∃ qm : ℚ, (if minimize then colMin df metric else colMax df metric)
            = Val.f qm ∧
          (∃ r1 ∈ df, rowGet r1 metric = Val.f qm) ∧
          (∀ r ∈ df, ∀ q : ℚ, rowGet r metric = Val.f q →
            if minimize then qm ≤ q else q ≤ qm) := by
      cases minimize
      · obtain ⟨qm, h1, h2, h3⟩ := colMax_spec df metric hfl
        exact ⟨qm, by simpa using h1, h2, fun r hr q hq => by
          simpa using h3 r hr q hq⟩
      · obtain ⟨qm, h1, h2, h3⟩ := colMin_spec df metric hfl
        exact ⟨qm, by simpa using h1, h2, fun r hr q hq => by
          simpa using h3 r hr q hq⟩
    obtain ⟨r0, hr0⟩ : ∃ r0, df.find? (fun r => cellEq (rowGet r metric)
        (if minimize then colMin df metric else colMax df metric)) = some r0 := by
      rw [← Option.isSome_iff_exists, List.find?_isSome]
      obtain ⟨r1, hr1, hr1q⟩ := hqmmem
      refine ⟨r1, hr1, ?_⟩
      rw [hr1q, hqm]
      simp [cellEq]
    refine ⟨r0, hr0, ?_, qm, hqm, hqmmem, hqmbd⟩
    rw [get_best_trial_plain_ok exp metric minimize am kc rmf df hcfg hok,
      if_neg (fun h0 => hne (List.length_eq_zero.1 h0)),
      filter_take_one _ df r0 hr0]
  · intro exp am kc rmf cfg hcfg hobj
    rcases cfg with ⟨obj⟩
    unfold get_best_trial
    rw [hcfg]
    rcases obj with ⟨metric, minimize⟩ | - | -
    · simp at hobj
    · rfl
    · rfl
  · intro exp metric minimize am kc rmf hcfg hok
    rw [get_best_trial_plain_ok exp metric minimize am kc rmf [] hcfg hok]
    rfl

theorem claim_C7_witness :
    ∃ r0, bestTrialDf.find? (fun r => cellEq (rowGet r "m")
        (if (true : Bool) then colMin bestTrialDf "m"
         else colMax bestTrialDf "m")) = some r0 ∧
      (get_best_trial bestTrialSample Option.none Option.none Option.none).2
          = Except.ok (some [r0]) ∧
      ∃ qm : ℚ, (if (true : Bool) then colMin bestTrialDf "m"
          else colMax bestTrialDf "m") = Val.f qm ∧
        (∃ r1 ∈ bestTrialDf, rowGet r1 "m" = Val.f qm) ∧
        (∀ r ∈ bestTrialDf, ∀ q : ℚ, rowGet r "m" = Val.f q →
          if (true : Bool) then qm ≤ q else q ≤ qm) :=
  claim_C7.2.1 bestTrialSample "m" true Option.none Option.none Option.none
    bestTrialDf rfl rfl (by decide)
    ⟨[("m", Val.f 5), ("trial_index", Val.i 0), ("arm_name", Val.s "0_0"),
      ("trial_status", Val.s "COMPLETED")], by decide, 5, by decide⟩

/-- C8: when the fetched long-format data is empty, `exp_to_df` returns the
empty table unchanged (no pivot, join, sort, or added columns), and
`get_standard_plots` returns an empty plot list. -/
theorem claim_C8 :
    (∀ (exp : AxExperiment) (metrics kc rmf : Option (List String)),
      exp.isMultiType = false → exp.fetchedDf metrics = [] →
      exp_to_df exp metrics kc rmf = Except.ok (exp.fetchedDf metrics)) ∧
    (∀ (deps : PlotDeps) (exp : AxExperiment) (gs : GenStrategy)
      (cfg : OptConfig),
      exp.optimizationConfig = some cfg → exp.fetchedDf Option.none = [] →
      get_standard_plots deps exp gs = Except.ok []) := by
  constructor
  · intro exp metrics kc rmf hmt hempty
    simp [exp_to_df, hmt, hempty]
  · intro deps exp gs cfg hcfg hempty
    rcases cfg with ⟨obj⟩
    unfold get_standard_plots
    rw [hcfg]
    rcases obj with ⟨metric, minimize⟩ | - | -
    · simp [hempty]
    · rfl
    · rfl

theorem claim_C8_witness :
    exp_to_df emptyDataExp Option.none Option.none Option.none
        = Except.ok (emptyDataExp.fetchedDf Option.none) ∧
    get_standard_plots
        ⟨fun _ => Option.none, Except.error PyErr.notImplemented,
          Except.error PyErr.notImplemented⟩
        emptyDataExp ⟨[], Option.none⟩ = Except.ok [] :=
  ⟨claim_C8.1 emptyDataExp Option.none Option.none Option.none rfl rfl,
   claim_C8.2 ⟨fun _ => Option.none, Except.error PyErr.notImplemented,
     Except.error PyErr.notImplemented⟩ emptyDataExp ⟨[], Option.none⟩
     ⟨Objective.plain "m" true⟩ rfl rfl⟩

/-- C9: when `get_best_trial` is called, for a plain objective, with a
non-None `additional_metrics` list that lacks the objective metric, the
caller's list ends as the original list with the objective metric appended
(Python appends to it in place before fetching, an observable side effect);
when the list already holds the metric it is left as is, and with
`additional_metrics` None no list exists to mutate. -/
theorem claim_C9 :
    (∀ (exp : AxExperiment) (ms : List String) (kc rmf : Option (List String))
      (metric : String) (minimize : Bool),
      exp.optimizationConfig = some ⟨Objective.plain metric minimize⟩ →
      metric ∉ ms →
      (get_best_trial exp (some ms) kc rmf).1 = some (ms ++ [metric])) ∧
    (∀ (exp : AxExperiment) (ms : List String) (kc rmf : Option (List String))
      (metric : String) (minimize : Bool),
      exp.optimizationConfig = some ⟨Objective.plain metric minimize⟩ →
      metric ∈ ms →
      (get_best_trial exp (some ms) kc rmf).1 = some ms) ∧
    (∀ (exp : AxExperiment) (kc rmf : Option (List String)),
      (get_best_trial exp Option.none kc rmf).1 = Option.none) := by
  refine ⟨?_, ?_, ?_⟩
  · intro exp ms kc rmf metric minimize hcfg hmem
    rw [get_best_trial_fst exp metric minimize (some ms) kc rmf hcfg]
    simp [amWithObjective, hmem]
  · intro exp ms kc rmf metric minimize hcfg hmem
    rw [get_best_trial_fst exp metric minimize (some ms) kc rmf hcfg]
    simp [amWithObjective, hmem]
  · intro exp kc rmf
    unfold get_best_trial
    rcases hc : exp.optimizationConfig with - | o
    · rfl
    · rcases o with ⟨obj2⟩
      rcases obj2 with ⟨metric, minimize⟩ | - | - <;> rfl

theorem claim_C9_witness :
    (get_best_trial bestTrialSample (some ["a"]) Option.none Option.none).1
      = some ["a", "m"] :=
  claim_C9.1 bestTrialSample ["a"] Option.none Option.none "m" true rfl
    (by decide)
